import Mathlib

/-!
Verification development for the earnings-ledger core of the
telegram-bot-website repository (src/app.py).

The ledger state (SQLite tables `users`, `earnings`, `withdrawals`,
`daily_limits`) is embedded as lists of records.  Monetary amounts stored
as SQLite REAL are modelled as exact rationals; timestamps and calendar
dates as naturals.  Auto-increment row ids are modelled with explicit
`next_user_id` / `next_withdrawal_id` counters (SQLite AUTOINCREMENT
starts at 1).  A transaction that raises (sqlite3.IntegrityError) commits
nothing; operations therefore return `Option`/`Except`, where the error
outcome leaves the caller's state untouched.

Functions present in src/app.py (`Database.register_user`,
`get_user_data`'s queries) are translated directly from the source.
Functions that the source calls but does not define
(`Database.add_referral_earning`, `Database.create_withdrawal`, the
watch-ad / limit-policy engine, the withdrawal transition operation) are
modelled from the spec; each such definition carries a doc comment
starting with `Modelled from the spec:`.
-/

namespace Ledger

/-- Withdrawal request status (src/app.py `withdrawals.status` TEXT column:
'pending', 'approved', 'rejected', 'paid'). -/
inductive WStatus where
  | pending
  | approved
  | rejected
  | paid
deriving DecidableEq, Repr

/-- A row of the `users` table (src/app.py lines 94-114).  The SQL `type`
column names are kept; `referred_by` references the internal `users.id` of
the referrer. -/
structure User where
  id : Nat
  telegram_id : Int
  username : String
  first_name : String
  last_name : String
  referral_code : String
  referred_by : Option Nat
  balance : ℚ
  total_earned : ℚ
  total_withdrawn : ℚ
  total_ads_watched : Nat
  last_active : Nat
  is_banned : Bool
  is_premium : Bool
deriving DecidableEq, Repr

/-- A row of the `earnings` table (src/app.py lines 117-127); `kind` embeds
the SQL `type` column (`type` is reserved in Lean). -/
structure Earning where
  user_id : Nat
  amount : ℚ
  kind : String
  description : String
  earned_at : Nat
deriving DecidableEq, Repr

/-- A row of the `withdrawals` table (src/app.py lines 130-144). -/
structure Withdrawal where
  id : Nat
  user_id : Nat
  amount : ℚ
  method : String
  mobile_number : String
  status : WStatus
  requested_at : Nat
  processed_at : Option Nat
deriving DecidableEq, Repr

/-- A row of the `daily_limits` table (src/app.py lines 175-185), one per
(user, calendar date). -/
structure DailyLimit where
  user_id : Nat
  date : Nat
  ads_watched : Nat
  earned_today : ℚ
deriving DecidableEq, Repr

/-- The configuration consumed by the core (src/app.py `Config` plus the
`settings` table defaults, lines 54-60 and 211-219).  Treated as read-only
input, per spec §6. -/
structure Config where
  ad_earning_rate : ℚ
  referral_bonus : ℚ
  minimum_withdrawal : ℚ
  daily_earning_limit : ℚ
  max_ads_per_day : Nat
  ad_cooldown : Nat
  welcome_bonus : ℚ
  premium_multiplier : ℚ
deriving DecidableEq, Repr

/-- The persistent ledger state: the four core tables of src/app.py. -/
structure DB where
  users : List User
  earnings : List Earning
  withdrawals : List Withdrawal
  daily_limits : List DailyLimit
  next_user_id : Nat
  next_withdrawal_id : Nat
deriving DecidableEq, Repr

/-- A freshly initialised database (src/app.py `init_database`): empty
tables, AUTOINCREMENT counters at 1. -/
def DB.empty : DB :=
  { users := [], earnings := [], withdrawals := [], daily_limits := [],
    next_user_id := 1, next_withdrawal_id := 1 }

/-- The referral code generated in `register_user` (src/app.py line 261):
`f"REF{telegram_id}{uuid.uuid4().hex[:6].upper()}"`; the random hex part is
a `nonce` parameter. -/
def referralCode (telegram_id : Int) (nonce : String) : String :=
  "REF" ++ toString telegram_id ++ nonce

/-- Crediting an earning of `amt` to the user row with internal id `r`:
balance and total_earned both grow by the credited amount. -/
def creditUser (amt : ℚ) (r : Nat) (u : User) : User :=
  if u.id == r then
    { u with balance := u.balance + amt, total_earned := u.total_earned + amt }
  else u

/-- The referral-bonus earning row credited to referrer `r`. -/
def refRow (cfg : Config) (r now : Nat) : Earning :=
  { user_id := r, amount := cfg.referral_bonus, kind := "referral-bonus",
    description := "Referral Bonus", earned_at := now }

/-- Modelled from the spec: `Database.add_referral_earning` is invoked from
`register_user` (src/app.py line 284) but its definition is not in the
source.  Spec §4.3: if a referrer was resolved, insert a referral-bonus
EarningEvent crediting the referrer's balance and total_earned by the
configured referral bonus, in the same transaction as the new user's
creation; a referrer that does not resolve leaves registration unaffected. -/
def add_referral_earning (cfg : Config) (db : DB) (referrer_id : Nat) (now : Nat) : DB :=
  if db.users.any (fun u => u.id == referrer_id) then
    { db with
      users := db.users.map (creditUser cfg.referral_bonus referrer_id),
      earnings := db.earnings ++ [refRow cfg referrer_id now] }
  else db

/-- The user row INSERTed by `register_user` (src/app.py lines 268-271):
`balance` and `total_earned` start at the configured welcome bonus, every
other numeric column at its schema default. -/
def newUserRow (cfg : Config) (db : DB) (telegram_id : Int)
    (username first_name last_name : String) (referred_by : Option Nat)
    (nonce : String) (now : Nat) : User :=
  { id := db.next_user_id, telegram_id := telegram_id, username := username,
    first_name := first_name, last_name := last_name,
    referral_code := referralCode telegram_id nonce,
    referred_by := referred_by,
    balance := cfg.welcome_bonus, total_earned := cfg.welcome_bonus,
    total_withdrawn := 0, total_ads_watched := 0, last_active := now,
    is_banned := false, is_premium := false }

/-- The welcome-bonus earning row INSERTed by `register_user` (src/app.py
lines 277-280; the SQL `type` column holds 'bonus'). -/
def welcomeRow (cfg : Config) (db : DB) (now : Nat) : Earning :=
  { user_id := db.next_user_id, amount := cfg.welcome_bonus, kind := "bonus",
    description := "Welcome Bonus", earned_at := now }

/-- The state produced by the INSERT statements of `register_user`
(src/app.py lines 268-290) before the optional referral credit: the new
user row, plus the welcome bonus earning row when the bonus is positive. -/
def insertNewUser (cfg : Config) (db : DB) (telegram_id : Int)
    (username first_name last_name : String) (referred_by : Option Nat)
    (nonce : String) (now : Nat) : DB :=
  { db with
    users := db.users ++
      [newUserRow cfg db telegram_id username first_name last_name referred_by nonce now],
    earnings := db.earnings ++
      (if 0 < cfg.welcome_bonus then [welcomeRow cfg db now] else []),
    next_user_id := db.next_user_id + 1 }

/-- `Database.register_user` (src/app.py lines 255-297).  A UNIQUE-constraint
violation on `telegram_id` or `referral_code` raises sqlite3.IntegrityError
before the commit, so the transaction leaves no state: modelled as `none`. -/
def register_user (cfg : Config) (db : DB) (telegram_id : Int)
    (username first_name last_name : String) (referred_by : Option Nat)
    (nonce : String) (now : Nat) : Option DB :=
  if db.users.any (fun u =>
      u.telegram_id == telegram_id || u.referral_code == referralCode telegram_id nonce) then
    none
  else
    let db2 := insertNewUser cfg db telegram_id username first_name last_name
      referred_by nonce now
    some (match referred_by with
          | some r => add_referral_earning cfg db2 r now
          | none => db2)

/-- The possible denial outcomes of the Earning Engine (spec §4.2, §4.3,
§7). -/
inductive ActionError where
  | UserNotFound
  | UserBanned
  | CooldownActive
  | DailyActionCapReached
  | DailyEarningCapReached
deriving DecidableEq, Repr

/-- The daily counter snapshot for (user, date): the stored row if present,
otherwise the zero counter (a lazily created row starts at zero). -/
def counterOf (db : DB) (uid today : Nat) : DailyLimit :=
  match db.daily_limits.find? (fun d => d.user_id == uid && d.date == today) with
  | some d => d
  | none => { user_id := uid, date := today, ads_watched := 0, earned_today := 0 }

/-- The timestamp of the user's most recent action-reward earning row, if
any (spec §4.2: cooldown measures time since the last recorded
action-reward EarningEvent). -/
def lastActionAt (db : DB) (uid : Nat) : Option Nat :=
  (db.earnings.filter (fun e => e.user_id == uid && e.kind == "action-reward")).foldl
    (fun acc e =>
      some (match acc with
            | none => e.earned_at
            | some t => max t e.earned_at)) none

/-- Whether the configured cooldown is still running at time `now` given
the last action-reward timestamp. -/
def cooldownRunning (cfg : Config) (la : Option Nat) (now : Nat) : Bool :=
  match la with
  | some t => decide (now < t + cfg.ad_cooldown)
  | none => false

/-- Modelled from the spec: the pure Limit Policy (§4.2), absent from
src/app.py (only its configuration defaults, lines 211-219, are in the
source).  Evaluates (user snapshot, daily counter snapshot, proposed
post-multiplier amount) to an optional denial reason. -/
def limitPolicy (cfg : Config) (u : User) (c : DailyLimit) (eff : ℚ)
    (la : Option Nat) (now : Nat) : Option ActionError :=
  if u.is_banned then some .UserBanned
  else if cooldownRunning cfg la now then some .CooldownActive
  else if cfg.max_ads_per_day ≤ c.ads_watched then some .DailyActionCapReached
  else if cfg.daily_earning_limit < c.earned_today + eff then some .DailyEarningCapReached
  else none

/-- The premium multiplier application (spec §4.2-§4.3: applied to the
proposed amount before the cap check). -/
def effectiveAmount (cfg : Config) (u : User) (base : ℚ) : ℚ :=
  if u.is_premium then base * cfg.premium_multiplier else base

/-- Create-or-increment of a (user, date) daily counter row
(`daily_limits` has UNIQUE(user_id, date), src/app.py line 183). -/
def upsertCounter (l : List DailyLimit) (uid today : Nat) (dAds : Nat)
    (dAmt : ℚ) : List DailyLimit :=
  if l.any (fun d => d.user_id == uid && d.date == today) then
    l.map fun d =>
      if d.user_id == uid && d.date == today then
        { d with ads_watched := d.ads_watched + dAds,
                 earned_today := d.earned_today + dAmt }
      else d
  else
    l ++ [{ user_id := uid, date := today, ads_watched := dAds, earned_today := dAmt }]

/-- The per-row user update of an allowed action: credit balance and
total_earned with the effective amount, bump total_ads_watched, refresh
last_active. -/
def actionUser (tid : Int) (eff : ℚ) (now : Nat) (v : User) : User :=
  if v.telegram_id == tid then
    { v with balance := v.balance + eff,
             total_earned := v.total_earned + eff,
             total_ads_watched := v.total_ads_watched + 1,
             last_active := now }
  else v

/-- The committed effect of an allowed action (spec §4.3 step 5): insert the
action-reward earning row, credit balance and total_earned, bump
total_ads_watched and the daily counter, refresh last_active. -/
def applyAction (db : DB) (tid : Int) (uid : Nat) (eff : ℚ) (now today : Nat) : DB :=
  { db with
    users := db.users.map (actionUser tid eff now),
    earnings := db.earnings ++
      [{ user_id := uid, amount := eff, kind := "action-reward",
         description := "Ad Reward", earned_at := now }],
    daily_limits := upsertCounter db.daily_limits uid today 1 eff }

/-- Modelled from the spec: the Earning Engine operation `recordAction`
(§4.3); the source's watch-ad handler is absent from src/app.py.  Loads the
user, applies the premium multiplier, consults the Limit Policy on the
post-multiplier amount against the daily counter snapshot, and commits the
whole update only on Allow; a denial commits nothing. -/
def recordAction (cfg : Config) (db : DB) (tid : Int) (base : ℚ)
    (now today : Nat) : Except ActionError DB :=
  match db.users.find? (fun u => u.telegram_id == tid) with
  | none => .error .UserNotFound
  | some u =>
    let eff := effectiveAmount cfg u base
    match limitPolicy cfg u (counterOf db u.id today) eff (lastActionAt db u.id) now with
    | some r => .error r
    | none => .ok (applyAction db tid u.id eff now today)

/-- The possible failure outcomes of a withdrawal request (spec §4.4, §7). -/
inductive WithdrawError where
  | UserNotFound
  | UserBanned
  | BelowMinimum
  | InsufficientBalance
deriving DecidableEq, Repr

/-- The per-row user update of an accepted withdrawal request: the hold
reduces balance only. -/
def holdUser (tid : Int) (amount : ℚ) (v : User) : User :=
  if v.telegram_id == tid then { v with balance := v.balance - amount } else v

/-- The `pending` withdrawal row INSERTed by an accepted request. -/
def newWdRow (db : DB) (uid : Nat) (amount : ℚ) (method mobile : String)
    (now : Nat) : Withdrawal :=
  { id := db.next_withdrawal_id, user_id := uid, amount := amount,
    method := method, mobile_number := mobile, status := .pending,
    requested_at := now, processed_at := none }

/-- The committed effect of an accepted withdrawal request: hold the amount
by decrementing balance and append the pending request row. -/
def applyWithdraw (db : DB) (tid : Int) (uid : Nat) (amount : ℚ)
    (method mobile : String) (now : Nat) : DB :=
  { db with
    users := db.users.map (holdUser tid amount),
    withdrawals := db.withdrawals ++ [newWdRow db uid amount method mobile now],
    next_withdrawal_id := db.next_withdrawal_id + 1 }

/-- Modelled from the spec: `Database.create_withdrawal`, called from the
`/api/withdraw` route (src/app.py line 517) but absent from the source.
Spec §4.4: fails with UserBanned / BelowMinimum / InsufficientBalance;
on success atomically decrements balance by the amount and records a
`pending` request, leaving total_withdrawn unchanged. -/
def create_withdrawal (cfg : Config) (db : DB) (tid : Int) (amount : ℚ)
    (method mobile : String) (now : Nat) : Except WithdrawError DB :=
  match db.users.find? (fun u => u.telegram_id == tid) with
  | none => .error .UserNotFound
  | some u =>
    if u.is_banned then .error .UserBanned
    else if amount < cfg.minimum_withdrawal then .error .BelowMinimum
    else if u.balance < amount then .error .InsufficientBalance
    else .ok (applyWithdraw db tid u.id amount method mobile now)

/-- The possible failure outcomes of a withdrawal transition (spec §4.4, §7). -/
inductive TransitionError where
  | RequestNotFound
  | InvalidTransition
deriving DecidableEq, Repr

/-- The legal withdrawal lifecycle edges (spec §4.4): pending→approved,
pending→rejected, approved→paid, approved→rejected. -/
def legalTransition : WStatus → WStatus → Bool
  | .pending, .approved => true
  | .pending, .rejected => true
  | .approved, .paid => true
  | .approved, .rejected => true
  | _, _ => false

/-- Terminal withdrawal states (spec §3: `rejected` and `paid`). -/
def isTerminal : WStatus → Bool
  | .rejected => true
  | .paid => true
  | _ => false

/-- The per-row request update of a legal transition: set the new status
and stamp `processed_at` on a terminal transition. -/
def restampWd (wid : Nat) (ts : WStatus) (now : Nat) (x : Withdrawal) : Withdrawal :=
  if x.id == wid then
    { x with status := ts,
             processed_at := if isTerminal ts then some now else x.processed_at }
  else x

/-- The per-row user update of a legal transition: on `rejected` the held
amount returns to balance, on `paid` it is added to total_withdrawn. -/
def settleUser (w : Withdrawal) (ts : WStatus) (v : User) : User :=
  if v.id == w.user_id then
    if ts == WStatus.rejected then { v with balance := v.balance + w.amount }
    else if ts == WStatus.paid then
      { v with total_withdrawn := v.total_withdrawn + w.amount }
    else v
  else v

/-- The committed effect of a legal withdrawal transition: restamp the
request row; on `rejected` restore the held amount to the user's balance;
on `paid` increment the user's total_withdrawn. -/
def applyTransition (db : DB) (w : Withdrawal) (ts : WStatus) (now : Nat) : DB :=
  { db with
    withdrawals := db.withdrawals.map (restampWd w.id ts now),
    users := db.users.map (settleUser w ts) }

/-- Modelled from the spec: the Withdrawal Manager's `transitionWithdrawal`
(§4.4); the admin approval code is absent from src/app.py (only the
`withdrawals` table DDL, lines 130-144, is in the source).  Any edge
outside the four legal ones fails with InvalidTransition and commits
nothing. -/
def transitionWithdrawal (db : DB) (wid : Nat) (ts : WStatus) (now : Nat) :
    Except TransitionError DB :=
  match db.withdrawals.find? (fun w => w.id == wid) with
  | none => .error .RequestNotFound
  | some w =>
    if legalTransition w.status ts then .ok (applyTransition db w ts now)
    else .error .InvalidTransition

/-- Today's earned amount as read by `get_user_data` (src/app.py lines
446-450): the `earned_today` of the (user, date) daily row, or 0 when no
row exists; a pure SELECT that creates nothing. -/
def todayEarned (db : DB) (uid today : Nat) : ℚ :=
  match db.daily_limits.find? (fun d => d.user_id == uid && d.date == today) with
  | some d => d.earned_today
  | none => 0

/-- `SELECT COUNT(*) FROM users WHERE referred_by = ?` (src/app.py line 453). -/
def totalReferrals (db : DB) (uid : Nat) : Nat :=
  (db.users.filter (fun u => u.referred_by == some uid)).length

/-- `SELECT COUNT(DISTINCT u.id) FROM users u JOIN earnings e ON u.id =
e.user_id WHERE u.referred_by = ?` (src/app.py lines 456-461): referred
users having at least one earnings row. -/
def activeReferrals (db : DB) (uid : Nat) : Nat :=
  (db.users.filter (fun u =>
    u.referred_by == some uid && db.earnings.any (fun e => e.user_id == u.id))).length

/-- Restatement of the spec's words for the direct-referral count (spec
§4.5): the number of users whose referrer is this user.  Used only to be
compared against the source-derived `totalReferrals`. -/
def specTotalReferrals (db : DB) (uid : Nat) : Nat :=
  db.users.countP fun u => decide (u.referred_by = some uid)

/-- Restatement of the spec's words for the active-referral count (spec
§4.5 and §9: referred users that have at least one EarningEvent of any
kind).  Used only to be compared against the source-derived
`activeReferrals`. -/
def specActiveReferrals (db : DB) (uid : Nat) : Nat :=
  db.users.countP fun u =>
    decide (u.referred_by = some uid ∧ ∃ e ∈ db.earnings, e.user_id = u.id)

/-- The stats object returned by the `/api/user/<telegram_id>` endpoint
(src/app.py lines 479-484). -/
structure UserStats where
  today_earned : ℚ
  total_referrals : Nat
  active_referrals : Nat
  referral_earnings : ℚ
deriving DecidableEq, Repr

/-- The read path of `get_user_data` (src/app.py lines 432-485): find the
user by telegram id, then aggregate today's earnings, referral counts, and
the derived `referral_earnings` value
`total_earned - today_earned - total_ads_watched * AD_EARNING_RATE`. -/
def get_user_data (cfg : Config) (db : DB) (tid : Int) (today : Nat) :
    Option UserStats :=
  match db.users.find? (fun u => u.telegram_id == tid) with
  | none => none
  | some u =>
    some { today_earned := todayEarned db u.id today,
           total_referrals := totalReferrals db u.id,
           active_referrals := activeReferrals db u.id,
           referral_earnings := u.total_earned - todayEarned db u.id today
             - (u.total_ads_watched : ℚ) * cfg.ad_earning_rate }

/-- Sum of the user's referral-bonus earning amounts (the first-class
reading of "referral earnings", spec §9). -/
def referralSum (db : DB) (uid : Nat) : ℚ :=
  ((db.earnings.filter (fun e => e.user_id == uid && e.kind == "referral-bonus")).map
    (fun e => e.amount)).sum

/-- Contribution of one withdrawal row to the held amount of user `uid`:
its amount while the request is `pending` or `approved`, else 0. -/
def heldContribution (uid : Nat) (w : Withdrawal) : ℚ :=
  if w.user_id == uid && (w.status == WStatus.pending || w.status == WStatus.approved)
  then w.amount else 0

/-- The total amount currently held against user `uid` by non-terminal
withdrawal requests (spec §4.4's balance hold, Glossary "Hold"). -/
def heldAmount (db : DB) (uid : Nat) : ℚ :=
  (db.withdrawals.map (heldContribution uid)).sum

/-- One completed mutating operation of the core: a successful commit of
registration, action reward, withdrawal request, or withdrawal transition.
The action's base amount is required positive, matching spec §3
(EarningEvent amount > 0; the adapter passes the configured positive ad
earning rate). -/
inductive Step (cfg : Config) : DB → DB → Prop where
  | register (db db' : DB) (tid : Int) (un fn ln : String) (rb : Option Nat)
      (nonce : String) (now : Nat)
      (h : register_user cfg db tid un fn ln rb nonce now = some db') :
      Step cfg db db'
  | action (db db' : DB) (tid : Int) (base : ℚ) (now today : Nat)
      (hpos : 0 < base)
      (h : recordAction cfg db tid base now today = .ok db') :
      Step cfg db db'
  | withdraw (db db' : DB) (tid : Int) (amount : ℚ) (method mobile : String)
      (now : Nat)
      (h : create_withdrawal cfg db tid amount method mobile now = .ok db') :
      Step cfg db db'
  | transition (db db' : DB) (wid : Nat) (ts : WStatus) (now : Nat)
      (h : transitionWithdrawal db wid ts now = .ok db') :
      Step cfg db db'

/-- States reachable from a freshly initialised database by completed
operations. -/
inductive Reachable (cfg : Config) : DB → Prop where
  | init : Reachable cfg DB.empty
  | step (db db' : DB) (hr : Reachable cfg db) (hs : Step cfg db db') :
      Reachable cfg db'

/-- The configuration domain the spec works in (§6 defaults: every monetary
setting non-negative, minimum withdrawal positive). -/
structure ConfigWF (cfg : Config) : Prop where
  referral_nonneg : 0 ≤ cfg.referral_bonus
  min_pos : 0 < cfg.minimum_withdrawal
  premium_nonneg : 0 ≤ cfg.premium_multiplier

/-- The ledger bookkeeping invariant: row ids are unique and below the
auto-increment counters, telegram ids are unique, withdrawal rows
reference allocated user ids, and every user's balance equals
total_earned − total_withdrawn − (amount held by open withdrawals). -/
structure Inv (db : DB) : Prop where
  users_nodup : db.users.Pairwise
    (fun a b => a.id ≠ b.id ∧ a.telegram_id ≠ b.telegram_id)
  users_lt : ∀ u ∈ db.users, u.id < db.next_user_id
  wd_nodup : db.withdrawals.Pairwise (fun a b => a.id ≠ b.id)
  wd_lt : ∀ w ∈ db.withdrawals, w.id < db.next_withdrawal_id
  wd_user_lt : ∀ w ∈ db.withdrawals, w.user_id < db.next_user_id
  bal_eq : ∀ u ∈ db.users,
    u.balance = u.total_earned - u.total_withdrawn - heldAmount db u.id

theorem user_rel_symm :
    Symmetric (fun a b : User => a.id ≠ b.id ∧ a.telegram_id ≠ b.telegram_id) :=
  fun _ _ h => ⟨fun e => h.1 e.symm, fun e => h.2 e.symm⟩

/-- Two user rows of a duplicate-free table with the same id are the same
row. -/
theorem user_eq_of_id {l : List User}
    (hpw : l.Pairwise (fun a b => a.id ≠ b.id ∧ a.telegram_id ≠ b.telegram_id))
    {a b : User} (ha : a ∈ l) (hb : b ∈ l) (h : a.id = b.id) : a = b := by
  by_contra hne
  exact (hpw.forall user_rel_symm ha hb hne).1 h

/-- Two user rows of a duplicate-free table with the same telegram id are
the same row. -/
theorem user_eq_of_tid {l : List User}
    (hpw : l.Pairwise (fun a b => a.id ≠ b.id ∧ a.telegram_id ≠ b.telegram_id))
    {a b : User} (ha : a ∈ l) (hb : b ∈ l) (h : a.telegram_id = b.telegram_id) :
    a = b := by
  by_contra hne
  exact (hpw.forall user_rel_symm ha hb hne).2 h

/-- Two withdrawal rows of a duplicate-free table with the same id are the
same row. -/
theorem wd_eq_of_id {l : List Withdrawal}
    (hpw : l.Pairwise (fun a b => a.id ≠ b.id))
    {a b : Withdrawal} (ha : a ∈ l) (hb : b ∈ l) (h : a.id = b.id) : a = b := by
  by_contra hne
  exact hpw.forall (fun _ _ hx => fun e => hx e.symm) ha hb hne h

/-- Updating the single row of `l` whose key is `k` changes a sum of row
values by that row's delta. -/
theorem sum_map_update {α : Type} (k : Nat) (key : α → Nat) (g : α → α)
    (f : α → ℚ) (hg : ∀ x, key x ≠ k → g x = x) (l : List α)
    (hpw : l.Pairwise (fun a b => key a ≠ key b)) (w : α) (hw : w ∈ l)
    (hk : key w = k) :
    ((l.map g).map f).sum = (l.map f).sum + (f (g w) - f w) := by
  induction l with
  | nil => cases hw
  | cons a l ih =>
    rcases List.pairwise_cons.mp hpw with ⟨ha, hpl⟩
    rcases List.mem_cons.mp hw with rfl | hw'
    · have hrest : l.map g = l := by
        have h1 : ∀ x ∈ l, g x = x := fun x hx =>
          hg x (fun hxk => ha x hx (hk.trans hxk.symm))
        calc l.map g = l.map id := List.map_congr_left (fun x hx => h1 x hx)
        _ = l := List.map_id l
      simp only [List.map_cons, List.sum_cons, hrest]
      ring
    · have hga : g a = a := hg a (fun hak => ha w hw' (hak.trans hk.symm))
      have := ih hpl hw'
      simp only [List.map_cons, List.sum_cons, hga, this]
      ring

@[simp] theorem creditUser_id (amt : ℚ) (r : Nat) (u : User) :
    (creditUser amt r u).id = u.id := by
  unfold creditUser; split <;> rfl

@[simp] theorem creditUser_tid (amt : ℚ) (r : Nat) (u : User) :
    (creditUser amt r u).telegram_id = u.telegram_id := by
  unfold creditUser; split <;> rfl

@[simp] theorem creditUser_withdrawn (amt : ℚ) (r : Nat) (u : User) :
    (creditUser amt r u).total_withdrawn = u.total_withdrawn := by
  unfold creditUser; split <;> rfl

@[simp] theorem creditUser_ads (amt : ℚ) (r : Nat) (u : User) :
    (creditUser amt r u).total_ads_watched = u.total_ads_watched := by
  unfold creditUser; split <;> rfl

@[simp] theorem actionUser_id (tid : Int) (eff : ℚ) (now : Nat) (v : User) :
    (actionUser tid eff now v).id = v.id := by
  unfold actionUser; split <;> rfl

@[simp] theorem actionUser_tid (tid : Int) (eff : ℚ) (now : Nat) (v : User) :
    (actionUser tid eff now v).telegram_id = v.telegram_id := by
  unfold actionUser; split <;> rfl

@[simp] theorem actionUser_withdrawn (tid : Int) (eff : ℚ) (now : Nat) (v : User) :
    (actionUser tid eff now v).total_withdrawn = v.total_withdrawn := by
  unfold actionUser; split <;> rfl

@[simp] theorem holdUser_id (tid : Int) (amount : ℚ) (v : User) :
    (holdUser tid amount v).id = v.id := by
  unfold holdUser; split <;> rfl

@[simp] theorem holdUser_tid (tid : Int) (amount : ℚ) (v : User) :
    (holdUser tid amount v).telegram_id = v.telegram_id := by
  unfold holdUser; split <;> rfl

@[simp] theorem holdUser_earned (tid : Int) (amount : ℚ) (v : User) :
    (holdUser tid amount v).total_earned = v.total_earned := by
  unfold holdUser; split <;> rfl

@[simp] theorem holdUser_withdrawn (tid : Int) (amount : ℚ) (v : User) :
    (holdUser tid amount v).total_withdrawn = v.total_withdrawn := by
  unfold holdUser; split <;> rfl

@[simp] theorem holdUser_ads (tid : Int) (amount : ℚ) (v : User) :
    (holdUser tid amount v).total_ads_watched = v.total_ads_watched := by
  unfold holdUser; split <;> rfl

@[simp] theorem settleUser_id (w : Withdrawal) (ts : WStatus) (v : User) :
    (settleUser w ts v).id = v.id := by
  unfold settleUser; split <;> (try split) <;> (try split) <;> rfl

@[simp] theorem settleUser_tid (w : Withdrawal) (ts : WStatus) (v : User) :
    (settleUser w ts v).telegram_id = v.telegram_id := by
  unfold settleUser; split <;> (try split) <;> (try split) <;> rfl

@[simp] theorem settleUser_earned (w : Withdrawal) (ts : WStatus) (v : User) :
    (settleUser w ts v).total_earned = v.total_earned := by
  unfold settleUser; split <;> (try split) <;> (try split) <;> rfl

@[simp] theorem settleUser_ads (w : Withdrawal) (ts : WStatus) (v : User) :
    (settleUser w ts v).total_ads_watched = v.total_ads_watched := by
  unfold settleUser; split <;> (try split) <;> (try split) <;> rfl

@[simp] theorem restampWd_id (wid : Nat) (ts : WStatus) (now : Nat) (x : Withdrawal) :
    (restampWd wid ts now x).id = x.id := by
  unfold restampWd; split <;> rfl

@[simp] theorem restampWd_user (wid : Nat) (ts : WStatus) (now : Nat) (x : Withdrawal) :
    (restampWd wid ts now x).user_id = x.user_id := by
  unfold restampWd; split <;> rfl

@[simp] theorem restampWd_amount (wid : Nat) (ts : WStatus) (now : Nat) (x : Withdrawal) :
    (restampWd wid ts now x).amount = x.amount := by
  unfold restampWd; split <;> rfl

theorem inv_empty : Inv DB.empty := by
  refine ⟨?_, ?_, ?_, ?_, ?_, ?_⟩ <;> simp [DB.empty]

theorem heldAmount_zero_of_fresh {db : DB} {uid : Nat}
    (h : ∀ w ∈ db.withdrawals, w.user_id ≠ uid) : heldAmount db uid = 0 := by
  unfold heldAmount
  apply List.sum_eq_zero
  intro x hx
  rw [List.mem_map] at hx
  obtain ⟨w, hw, rfl⟩ := hx
  simp [heldContribution, h w hw]

theorem heldAmount_users_earnings {db : DB} (us : List User) (es : List Earning)
    (uid : Nat) :
    heldAmount { db with users := us, earnings := es } uid = heldAmount db uid := rfl

theorem inv_add_referral (cfg : Config) {db : DB} (r now : Nat) (hinv : Inv db) :
    Inv (add_referral_earning cfg db r now) := by
  unfold add_referral_earning
  split
  · refine ⟨?_, ?_, hinv.wd_nodup, hinv.wd_lt, hinv.wd_user_lt, ?_⟩
    · rw [List.pairwise_map]
      exact hinv.users_nodup.imp (fun h => ⟨by simpa using h.1, by simpa using h.2⟩)
    · intro u hu
      rw [List.mem_map] at hu
      obtain ⟨v, hv, rfl⟩ := hu
      simpa using hinv.users_lt v hv
    · intro u hu
      rw [List.mem_map] at hu
      obtain ⟨v, hv, rfl⟩ := hu
      have hbal := hinv.bal_eq v hv
      rw [heldAmount_users_earnings]
      simp only [creditUser_id, creditUser_withdrawn]
      unfold creditUser
      split
      · show v.balance + cfg.referral_bonus =
          v.total_earned + cfg.referral_bonus - v.total_withdrawn - heldAmount db v.id
        linarith
      · exact hbal
  · exact hinv

@[simp] theorem insertNewUser_users (cfg : Config) (db : DB) (tid : Int)
    (un fn ln : String) (rb : Option Nat) (nonce : String) (now : Nat) :
    (insertNewUser cfg db tid un fn ln rb nonce now).users =
      db.users ++ [newUserRow cfg db tid un fn ln rb nonce now] := rfl

@[simp] theorem insertNewUser_earnings (cfg : Config) (db : DB) (tid : Int)
    (un fn ln : String) (rb : Option Nat) (nonce : String) (now : Nat) :
    (insertNewUser cfg db tid un fn ln rb nonce now).earnings =
      db.earnings ++ (if 0 < cfg.welcome_bonus then [welcomeRow cfg db now] else []) := rfl

@[simp] theorem insertNewUser_withdrawals (cfg : Config) (db : DB) (tid : Int)
    (un fn ln : String) (rb : Option Nat) (nonce : String) (now : Nat) :
    (insertNewUser cfg db tid un fn ln rb nonce now).withdrawals =
      db.withdrawals := rfl

@[simp] theorem insertNewUser_next_user (cfg : Config) (db : DB) (tid : Int)
    (un fn ln : String) (rb : Option Nat) (nonce : String) (now : Nat) :
    (insertNewUser cfg db tid un fn ln rb nonce now).next_user_id =
      db.next_user_id + 1 := rfl

@[simp] theorem insertNewUser_next_wd (cfg : Config) (db : DB) (tid : Int)
    (un fn ln : String) (rb : Option Nat) (nonce : String) (now : Nat) :
    (insertNewUser cfg db tid un fn ln rb nonce now).next_withdrawal_id =
      db.next_withdrawal_id := rfl

theorem heldAmount_insertNewUser (cfg : Config) (db : DB) (tid : Int)
    (un fn ln : String) (rb : Option Nat) (nonce : String) (now : Nat) (uid : Nat) :
    heldAmount (insertNewUser cfg db tid un fn ln rb nonce now) uid =
      heldAmount db uid := rfl

theorem inv_insertNewUser (cfg : Config) {db : DB} {tid : Int}
    {un fn ln : String} {rb : Option Nat} {nonce : String} {now : Nat}
    (hinv : Inv db) (hfresh : ∀ u ∈ db.users, u.telegram_id ≠ tid) :
    Inv (insertNewUser cfg db tid un fn ln rb nonce now) := by
  refine ⟨?_, ?_, ?_, ?_, ?_, ?_⟩
  · rw [insertNewUser_users, List.pairwise_append]
    refine ⟨hinv.users_nodup, List.pairwise_singleton _ _, ?_⟩
    intro a ha b hb
    rw [List.mem_singleton] at hb
    subst hb
    exact ⟨Nat.ne_of_lt (hinv.users_lt a ha), hfresh a ha⟩
  · intro u hu
    rw [insertNewUser_users, List.mem_append] at hu
    rw [insertNewUser_next_user]
    rcases hu with hu | hu
    · exact Nat.lt_succ_of_lt (hinv.users_lt u hu)
    · rw [List.mem_singleton] at hu
      subst hu
      exact Nat.lt_succ_self _
  · rw [insertNewUser_withdrawals]
    exact hinv.wd_nodup
  · intro w hw
    rw [insertNewUser_withdrawals] at hw
    rw [insertNewUser_next_wd]
    exact hinv.wd_lt w hw
  · intro w hw
    rw [insertNewUser_withdrawals] at hw
    rw [insertNewUser_next_user]
    exact Nat.lt_succ_of_lt (hinv.wd_user_lt w hw)
  · intro u hu
    rw [insertNewUser_users, List.mem_append] at hu
    rw [heldAmount_insertNewUser]
    rcases hu with hu | hu
    · exact hinv.bal_eq u hu
    · rw [List.mem_singleton] at hu
      subst hu
      have hheld : heldAmount db db.next_user_id = 0 := by
        apply heldAmount_zero_of_fresh
        intro w hw
        exact Nat.ne_of_lt (hinv.wd_user_lt w hw)
      simp only [newUserRow, hheld]
      ring

theorem inv_register (cfg : Config) {db db' : DB} {tid : Int}
    {un fn ln : String} {rb : Option Nat} {nonce : String} {now : Nat}
    (hinv : Inv db)
    (h : register_user cfg db tid un fn ln rb nonce now = some db') : Inv db' := by
  unfold register_user at h
  split at h
  · exact absurd h (by simp)
  case isFalse hguard =>
    have hfresh : ∀ u ∈ db.users, u.telegram_id ≠ tid := by
      simp only [List.any_eq_true, Bool.or_eq_true, beq_iff_eq] at hguard
      push_neg at hguard
      intro u hu
      exact (hguard u hu).1
    rw [Option.some_inj] at h
    cases rb with
    | none => exact h ▸ inv_insertNewUser cfg hinv hfresh
    | some r => exact h ▸ inv_add_referral cfg r now (inv_insertNewUser cfg hinv hfresh)

@[simp] theorem applyAction_users (db : DB) (tid : Int) (uid : Nat) (eff : ℚ)
    (now today : Nat) :
    (applyAction db tid uid eff now today).users =
      db.users.map (actionUser tid eff now) := rfl

@[simp] theorem applyAction_earnings (db : DB) (tid : Int) (uid : Nat) (eff : ℚ)
    (now today : Nat) :
    (applyAction db tid uid eff now today).earnings = db.earnings ++
      [{ user_id := uid, amount := eff, kind := "action-reward",
         description := "Ad Reward", earned_at := now }] := rfl

@[simp] theorem applyAction_withdrawals (db : DB) (tid : Int) (uid : Nat)
    (eff : ℚ) (now today : Nat) :
    (applyAction db tid uid eff now today).withdrawals = db.withdrawals := rfl

@[simp] theorem applyAction_next_user (db : DB) (tid : Int) (uid : Nat)
    (eff : ℚ) (now today : Nat) :
    (applyAction db tid uid eff now today).next_user_id = db.next_user_id := rfl

@[simp] theorem applyAction_next_wd (db : DB) (tid : Int) (uid : Nat)
    (eff : ℚ) (now today : Nat) :
    (applyAction db tid uid eff now today).next_withdrawal_id =
      db.next_withdrawal_id := rfl

@[simp] theorem applyWithdraw_users (db : DB) (tid : Int) (uid : Nat)
    (amount : ℚ) (method mobile : String) (now : Nat) :
    (applyWithdraw db tid uid amount method mobile now).users =
      db.users.map (holdUser tid amount) := rfl

@[simp] theorem applyWithdraw_withdrawals (db : DB) (tid : Int) (uid : Nat)
    (amount : ℚ) (method mobile : String) (now : Nat) :
    (applyWithdraw db tid uid amount method mobile now).withdrawals =
      db.withdrawals ++ [newWdRow db uid amount method mobile now] := rfl

@[simp] theorem applyWithdraw_next_user (db : DB) (tid : Int) (uid : Nat)
    (amount : ℚ) (method mobile : String) (now : Nat) :
    (applyWithdraw db tid uid amount method mobile now).next_user_id =
      db.next_user_id := rfl

@[simp] theorem applyWithdraw_next_wd (db : DB) (tid : Int) (uid : Nat)
    (amount : ℚ) (method mobile : String) (now : Nat) :
    (applyWithdraw db tid uid amount method mobile now).next_withdrawal_id =
      db.next_withdrawal_id + 1 := rfl

theorem inv_applyAction (db : DB) (tid : Int) (uid : Nat) (eff : ℚ)
    (now today : Nat) (hinv : Inv db) :
    Inv (applyAction db tid uid eff now today) := by
  refine ⟨?_, ?_, hinv.wd_nodup, hinv.wd_lt, hinv.wd_user_lt, ?_⟩
  · rw [applyAction_users, List.pairwise_map]
    exact hinv.users_nodup.imp (fun h => ⟨by simpa using h.1, by simpa using h.2⟩)
  · intro u hu
    rw [applyAction_users, List.mem_map] at hu
    obtain ⟨v, hv, rfl⟩ := hu
    simpa using hinv.users_lt v hv
  · intro u hu
    rw [applyAction_users, List.mem_map] at hu
    obtain ⟨v, hv, rfl⟩ := hu
    have hbal := hinv.bal_eq v hv
    simp only [actionUser_id, actionUser_withdrawn]
    have hheld : heldAmount (applyAction db tid uid eff now today) v.id =
        heldAmount db v.id := rfl
    rw [hheld]
    unfold actionUser
    split
    · show v.balance + eff =
        v.total_earned + eff - v.total_withdrawn - heldAmount db v.id
      linarith
    · exact hbal

theorem inv_recordAction {cfg : Config} {db db' : DB} {tid : Int} {base : ℚ}
    {now today : Nat} (hinv : Inv db)
    (h : recordAction cfg db tid base now today = .ok db') : Inv db' := by
  unfold recordAction at h
  cases hfind : db.users.find? (fun u => u.telegram_id == tid) with
  | none =>
    rw [hfind] at h
    exact absurd h (by simp)
  | some u =>
    rw [hfind] at h
    simp only at h
    cases hpol : limitPolicy cfg u (counterOf db u.id today)
        (effectiveAmount cfg u base) (lastActionAt db u.id) now with
    | some r =>
      rw [hpol] at h
      exact absurd h (by simp)
    | none =>
      rw [hpol] at h
      simp only [Except.ok.injEq] at h
      exact h ▸ inv_applyAction db tid u.id (effectiveAmount cfg u base) now today hinv

theorem heldAmount_applyWithdraw (db : DB) (tid : Int) (uid : Nat) (amount : ℚ)
    (method mobile : String) (now : Nat) (k : Nat) :
    heldAmount (applyWithdraw db tid uid amount method mobile now) k =
      heldAmount db k + heldContribution k (newWdRow db uid amount method mobile now) := by
  unfold heldAmount applyWithdraw
  simp

theorem inv_applyWithdraw {db : DB} {tid : Int} {u : User} (amount : ℚ)
    (method mobile : String) (now : Nat) (hinv : Inv db)
    (hfind : db.users.find? (fun v => v.telegram_id == tid) = some u) :
    Inv (applyWithdraw db tid u.id amount method mobile now) := by
  have humem : u ∈ db.users := List.mem_of_find?_eq_some hfind
  have hutid : u.telegram_id = tid := by
    have := List.find?_some hfind
    simpa using this
  refine ⟨?_, ?_, ?_, ?_, ?_, ?_⟩
  · rw [applyWithdraw_users, List.pairwise_map]
    exact hinv.users_nodup.imp (fun h => ⟨by simpa using h.1, by simpa using h.2⟩)
  · intro v hv
    rw [applyWithdraw_users, List.mem_map] at hv
    obtain ⟨x, hx, rfl⟩ := hv
    simpa using hinv.users_lt x hx
  · rw [applyWithdraw_withdrawals, List.pairwise_append]
    refine ⟨hinv.wd_nodup, List.pairwise_singleton _ _, ?_⟩
    intro a ha b hb
    rw [List.mem_singleton] at hb
    subst hb
    exact Nat.ne_of_lt (hinv.wd_lt a ha)
  · intro w hw
    rw [applyWithdraw_withdrawals, List.mem_append] at hw
    rw [applyWithdraw_next_wd]
    rcases hw with hw | hw
    · exact Nat.lt_succ_of_lt (hinv.wd_lt w hw)
    · rw [List.mem_singleton] at hw
      subst hw
      exact Nat.lt_succ_self _
  · intro w hw
    rw [applyWithdraw_withdrawals, List.mem_append] at hw
    rw [applyWithdraw_next_user]
    rcases hw with hw | hw
    · exact hinv.wd_user_lt w hw
    · rw [List.mem_singleton] at hw
      subst hw
      exact hinv.users_lt u humem
  · intro v hv
    rw [applyWithdraw_users, List.mem_map] at hv
    obtain ⟨x, hx, rfl⟩ := hv
    have hbal := hinv.bal_eq x hx
    rw [heldAmount_applyWithdraw]
    simp only [holdUser_id, holdUser_earned, holdUser_withdrawn]
    unfold holdUser
    split
    case isTrue hxt =>
      have hxu : x = u := by
        apply user_eq_of_tid hinv.users_nodup hx humem
        rw [hutid]
        simpa using hxt
      subst hxu
      have hcontrib : heldContribution x.id
          (newWdRow db x.id amount method mobile now) = amount := by
        simp [heldContribution, newWdRow]
      show x.balance - amount = x.total_earned - x.total_withdrawn -
        (heldAmount db x.id + heldContribution x.id (newWdRow db x.id amount method mobile now))
      rw [hcontrib]
      linarith
    case isFalse hxt =>
      have hxu : x.id ≠ u.id := by
        intro hid
        have := user_eq_of_id hinv.users_nodup hx humem hid
        subst this
        exact hxt (by simp [hutid])
      have hne : (u.id == x.id) = false := beq_eq_false_iff_ne.mpr (Ne.symm hxu)
      have hcontrib : heldContribution x.id
          (newWdRow db u.id amount method mobile now) = 0 := by
        simp [heldContribution, newWdRow, hne]
      rw [hcontrib]
      linarith

theorem inv_create_withdrawal {cfg : Config} {db db' : DB} {tid : Int}
    {amount : ℚ} {method mobile : String} {now : Nat} (hinv : Inv db)
    (h : create_withdrawal cfg db tid amount method mobile now = .ok db') :
    Inv db' := by
  unfold create_withdrawal at h
  cases hfind : db.users.find? (fun v => v.telegram_id == tid) with
  | none =>
    rw [hfind] at h
    exact absurd h (by simp)
  | some u =>
    rw [hfind] at h
    simp only at h
    split at h
    · exact absurd h (by simp)
    · split at h
      · exact absurd h (by simp)
      · split at h
        · exact absurd h (by simp)
        · simp only [Except.ok.injEq] at h
          exact h ▸ inv_applyWithdraw amount method mobile now hinv hfind

@[simp] theorem applyTransition_users (db : DB) (w : Withdrawal) (ts : WStatus)
    (now : Nat) :
    (applyTransition db w ts now).users = db.users.map (settleUser w ts) := rfl

@[simp] theorem applyTransition_withdrawals (db : DB) (w : Withdrawal)
    (ts : WStatus) (now : Nat) :
    (applyTransition db w ts now).withdrawals =
      db.withdrawals.map (restampWd w.id ts now) := rfl

@[simp] theorem applyTransition_earnings (db : DB) (w : Withdrawal)
    (ts : WStatus) (now : Nat) :
    (applyTransition db w ts now).earnings = db.earnings := rfl

@[simp] theorem applyTransition_next_user (db : DB) (w : Withdrawal)
    (ts : WStatus) (now : Nat) :
    (applyTransition db w ts now).next_user_id = db.next_user_id := rfl

@[simp] theorem applyTransition_next_wd (db : DB) (w : Withdrawal)
    (ts : WStatus) (now : Nat) :
    (applyTransition db w ts now).next_withdrawal_id = db.next_withdrawal_id := rfl

theorem restampWd_ne {wid : Nat} (ts : WStatus) (now : Nat) {x : Withdrawal}
    (h : x.id ≠ wid) : restampWd wid ts now x = x := by
  unfold restampWd
  simp [beq_eq_false_iff_ne.mpr h]

theorem restampWd_self (ts : WStatus) (now : Nat) (w : Withdrawal) :
    restampWd w.id ts now w =
      { w with status := ts,
               processed_at := if isTerminal ts then some now else w.processed_at } := by
  unfold restampWd
  simp

theorem heldAmount_applyTransition {db : DB} {w : Withdrawal} (ts : WStatus)
    (now : Nat) (hw : w ∈ db.withdrawals)
    (hpw : db.withdrawals.Pairwise (fun a b => a.id ≠ b.id)) (uid : Nat) :
    heldAmount (applyTransition db w ts now) uid =
      heldAmount db uid +
        (heldContribution uid (restampWd w.id ts now w) - heldContribution uid w) := by
  unfold heldAmount
  rw [applyTransition_withdrawals]
  exact sum_map_update w.id (fun x => x.id) (restampWd w.id ts now)
    (heldContribution uid) (fun x hx => restampWd_ne ts now hx)
    db.withdrawals hpw w hw rfl

theorem settleUser_approved (w : Withdrawal) (v : User) :
    settleUser w WStatus.approved v = v := by
  unfold settleUser
  split <;> rfl

theorem settleUser_ne {w : Withdrawal} (ts : WStatus) {v : User}
    (h : (v.id == w.user_id) = false) : settleUser w ts v = v := by
  unfold settleUser
  simp [h]

theorem settleUser_bal_rejected {w : Withdrawal} {v : User}
    (h : (v.id == w.user_id) = true) :
    (settleUser w WStatus.rejected v).balance = v.balance + w.amount := by
  unfold settleUser
  rw [if_pos h]
  rfl

theorem settleUser_wd_rejected {w : Withdrawal} {v : User}
    (h : (v.id == w.user_id) = true) :
    (settleUser w WStatus.rejected v).total_withdrawn = v.total_withdrawn := by
  unfold settleUser
  rw [if_pos h]
  rfl

theorem settleUser_bal_paid {w : Withdrawal} {v : User}
    (h : (v.id == w.user_id) = true) :
    (settleUser w WStatus.paid v).balance = v.balance := by
  unfold settleUser
  rw [if_pos h]
  rfl

theorem settleUser_wd_paid {w : Withdrawal} {v : User}
    (h : (v.id == w.user_id) = true) :
    (settleUser w WStatus.paid v).total_withdrawn =
      v.total_withdrawn + w.amount := by
  unfold settleUser
  rw [if_pos h]
  rfl

theorem heldContribution_eq_amount {uid : Nat} {w : Withdrawal}
    (hu : (w.user_id == uid) = true)
    (hs : (w.status == WStatus.pending || w.status == WStatus.approved) = true) :
    heldContribution uid w = w.amount := by
  simp [heldContribution, hu, hs]

theorem heldContribution_zero_user {uid : Nat} {w : Withdrawal}
    (hu : (w.user_id == uid) = false) : heldContribution uid w = 0 := by
  simp [heldContribution, hu]

theorem heldContribution_restamp_approved {uid : Nat} {w : Withdrawal} (now : Nat)
    (hs : (w.status == WStatus.pending || w.status == WStatus.approved) = true) :
    heldContribution uid (restampWd w.id WStatus.approved now w) =
      heldContribution uid w := by
  rw [restampWd_self]
  simp [heldContribution, hs]

theorem heldContribution_restamp_terminal {uid : Nat} {w : Withdrawal}
    (ts : WStatus) (now : Nat) (hts : isTerminal ts = true) :
    heldContribution uid (restampWd w.id ts now w) = 0 := by
  rw [restampWd_self]
  cases ts <;> simp_all [heldContribution, isTerminal]

theorem inv_applyTransition {db : DB} {w : Withdrawal} {ts : WStatus} {now : Nat}
    (hinv : Inv db) (hw : w ∈ db.withdrawals)
    (hlegal : legalTransition w.status ts = true) :
    Inv (applyTransition db w ts now) := by
  have hheldstat : (w.status == WStatus.pending || w.status == WStatus.approved) = true := by
    cases hs : w.status <;> rw [hs] at hlegal <;>
      simp_all [legalTransition]
  refine ⟨?_, ?_, ?_, ?_, ?_, ?_⟩
  · rw [applyTransition_users, List.pairwise_map]
    exact hinv.users_nodup.imp (fun h => ⟨by simpa using h.1, by simpa using h.2⟩)
  · intro v hv
    rw [applyTransition_users, List.mem_map] at hv
    obtain ⟨x, hx, rfl⟩ := hv
    rw [applyTransition_next_user]
    simpa using hinv.users_lt x hx
  · rw [applyTransition_withdrawals, List.pairwise_map]
    exact hinv.wd_nodup.imp (fun h => by simpa using h)
  · intro x hx
    rw [applyTransition_withdrawals, List.mem_map] at hx
    obtain ⟨y, hy, rfl⟩ := hx
    rw [applyTransition_next_wd]
    simpa using hinv.wd_lt y hy
  · intro x hx
    rw [applyTransition_withdrawals, List.mem_map] at hx
    obtain ⟨y, hy, rfl⟩ := hx
    rw [applyTransition_next_user]
    simpa using hinv.wd_user_lt y hy
  · intro v hv
    rw [applyTransition_users, List.mem_map] at hv
    obtain ⟨x, hx, rfl⟩ := hv
    have hbal := hinv.bal_eq x hx
    rw [heldAmount_applyTransition ts now hw hinv.wd_nodup]
    simp only [settleUser_id, settleUser_earned]
    by_cases hxw : x.id = w.user_id
    · have hb1 : (x.id == w.user_id) = true := beq_iff_eq.mpr hxw
      have hb2 : (w.user_id == x.id) = true := beq_iff_eq.mpr hxw.symm
      have hcw : heldContribution x.id w = w.amount :=
        heldContribution_eq_amount hb2 hheldstat
      cases ts with
      | pending => cases hs : w.status <;> rw [hs] at hlegal <;>
          simp_all [legalTransition]
      | approved =>
        rw [settleUser_approved, heldContribution_restamp_approved now hheldstat]
        linarith
      | rejected =>
        rw [settleUser_bal_rejected hb1, settleUser_wd_rejected hb1,
          heldContribution_restamp_terminal WStatus.rejected now rfl, hcw]
        linarith
      | paid =>
        rw [settleUser_bal_paid hb1, settleUser_wd_paid hb1,
          heldContribution_restamp_terminal WStatus.paid now rfl, hcw]
        linarith
    · have hb1 : (x.id == w.user_id) = false := beq_eq_false_iff_ne.mpr hxw
      have hb2 : (w.user_id == x.id) = false :=
        beq_eq_false_iff_ne.mpr (Ne.symm hxw)
      have hcw : heldContribution x.id w = 0 := heldContribution_zero_user hb2
      have hcr : heldContribution x.id (restampWd w.id ts now w) = 0 := by
        rw [restampWd_self]
        simp [heldContribution, hb2]
      rw [settleUser_ne ts hb1, hcw, hcr]
      linarith

theorem inv_transitionWithdrawal {db db' : DB} {wid : Nat} {ts : WStatus}
    {now : Nat} (hinv : Inv db)
    (h : transitionWithdrawal db wid ts now = .ok db') : Inv db' := by
  unfold transitionWithdrawal at h
  cases hfind : db.withdrawals.find? (fun w => w.id == wid) with
  | none =>
    rw [hfind] at h
    exact absurd h (by simp)
  | some w =>
    rw [hfind] at h
    simp only at h
    split at h
    case isTrue hlegal =>
      simp only [Except.ok.injEq] at h
      exact h ▸ inv_applyTransition hinv (List.mem_of_find?_eq_some hfind) hlegal
    case isFalse =>
      exact absurd h (by simp)

theorem inv_step {cfg : Config} {db db' : DB} (hinv : Inv db)
    (hs : Step cfg db db') : Inv db' := by
  cases hs with
  | register tid un fn ln rb nonce now h => exact inv_register cfg hinv h
  | action tid base now today hpos h => exact inv_recordAction hinv h
  | withdraw tid amount method mobile now h =>
      exact inv_create_withdrawal hinv h
  | transition wid ts now h => exact inv_transitionWithdrawal hinv h

theorem inv_reachable {cfg : Config} {db : DB} (hr : Reachable cfg db) :
    Inv db := by
  induction hr with
  | init => exact inv_empty
  | step db db' hr hs ih => exact inv_step ih hs

@[simp] theorem add_referral_withdrawals (cfg : Config) (db : DB) (r now : Nat) :
    (add_referral_earning cfg db r now).withdrawals = db.withdrawals := by
  unfold add_referral_earning
  split <;> rfl

@[simp] theorem add_referral_next_user (cfg : Config) (db : DB) (r now : Nat) :
    (add_referral_earning cfg db r now).next_user_id = db.next_user_id := by
  unfold add_referral_earning
  split <;> rfl

theorem add_referral_users_cases (cfg : Config) (db : DB) (r now : Nat) :
    (add_referral_earning cfg db r now).users =
        db.users.map (creditUser cfg.referral_bonus r) ∨
      (add_referral_earning cfg db r now).users = db.users := by
  unfold add_referral_earning
  split
  · exact Or.inl rfl
  · exact Or.inr rfl

/-- Inversion of a successful registration: the guard found no duplicate
and the result is the insert plus the optional referral credit. -/
theorem register_state {cfg : Config} {db db' : DB} {tid : Int}
    {un fn ln : String} {rb : Option Nat} {nonce : String} {now : Nat}
    (h : register_user cfg db tid un fn ln rb nonce now = some db') :
    (∀ u ∈ db.users,
        u.telegram_id ≠ tid ∧ u.referral_code ≠ referralCode tid nonce) ∧
    (rb = none → db' = insertNewUser cfg db tid un fn ln rb nonce now) ∧
    (∀ r, rb = some r → db' = add_referral_earning cfg
        (insertNewUser cfg db tid un fn ln rb nonce now) r now) := by
  unfold register_user at h
  split at h
  · exact absurd h (by simp)
  case isFalse hguard =>
    refine ⟨?_, ?_, ?_⟩
    · simp only [List.any_eq_true, Bool.or_eq_true, beq_iff_eq] at hguard
      push_neg at hguard
      exact hguard
    · rintro rfl
      rw [Option.some_inj] at h
      exact h.symm
    · rintro r rfl
      rw [Option.some_inj] at h
      exact h.symm

/-- Inversion of a successful action: a user was found, the policy allowed
the post-multiplier amount, and the whole update committed. -/
theorem recordAction_ok {cfg : Config} {db db' : DB} {tid : Int} {base : ℚ}
    {now today : Nat} (h : recordAction cfg db tid base now today = .ok db') :
    ∃ u, db.users.find? (fun v => v.telegram_id == tid) = some u ∧
      limitPolicy cfg u (counterOf db u.id today) (effectiveAmount cfg u base)
        (lastActionAt db u.id) now = none ∧
      db' = applyAction db tid u.id (effectiveAmount cfg u base) now today := by
  unfold recordAction at h
  cases hfind : db.users.find? (fun v => v.telegram_id == tid) with
  | none =>
    rw [hfind] at h
    exact absurd h (by simp)
  | some u =>
    rw [hfind] at h
    simp only at h
    cases hpol : limitPolicy cfg u (counterOf db u.id today)
        (effectiveAmount cfg u base) (lastActionAt db u.id) now with
    | some r =>
      rw [hpol] at h
      exact absurd h (by simp)
    | none =>
      rw [hpol] at h
      simp only [Except.ok.injEq] at h
      exact ⟨u, rfl, hpol, h.symm⟩

/-- Inversion of a successful withdrawal request: a non-banned user with
sufficient balance was found and the hold committed. -/
theorem create_withdrawal_ok {cfg : Config} {db db' : DB} {tid : Int}
    {amount : ℚ} {method mobile : String} {now : Nat}
    (h : create_withdrawal cfg db tid amount method mobile now = .ok db') :
    ∃ u, db.users.find? (fun v => v.telegram_id == tid) = some u ∧
      u.is_banned = false ∧ cfg.minimum_withdrawal ≤ amount ∧
      amount ≤ u.balance ∧
      db' = applyWithdraw db tid u.id amount method mobile now := by
  unfold create_withdrawal at h
  cases hfind : db.users.find? (fun v => v.telegram_id == tid) with
  | none =>
    rw [hfind] at h
    exact absurd h (by simp)
  | some u =>
    rw [hfind] at h
    simp only at h
    split at h
    · exact absurd h (by simp)
    case isFalse hban =>
      split at h
      · exact absurd h (by simp)
      case isFalse hmin =>
        split at h
        · exact absurd h (by simp)
        case isFalse hbal =>
          simp only [Except.ok.injEq] at h
          refine ⟨u, rfl, ?_, not_lt.mp hmin, not_lt.mp hbal, h.symm⟩
          simpa using hban

/-- Inversion of a successful transition: the request was found and the
edge was legal. -/
theorem transition_ok {db db' : DB} {wid : Nat} {ts : WStatus} {now : Nat}
    (h : transitionWithdrawal db wid ts now = .ok db') :
    ∃ w, db.withdrawals.find? (fun x => x.id == wid) = some w ∧
      legalTransition w.status ts = true ∧ db' = applyTransition db w ts now := by
  unfold transitionWithdrawal at h
  cases hfind : db.withdrawals.find? (fun x => x.id == wid) with
  | none =>
    rw [hfind] at h
    exact absurd h (by simp)
  | some w =>
    rw [hfind] at h
    simp only at h
    split at h
    case isTrue hlegal =>
      simp only [Except.ok.injEq] at h
      exact ⟨w, rfl, hlegal, h.symm⟩
    case isFalse =>
      exact absurd h (by simp)

/-- Every stored withdrawal row carries a positive amount. -/
def WdPos (db : DB) : Prop := ∀ w ∈ db.withdrawals, 0 < w.amount

theorem wdpos_step {cfg : Config} {db db' : DB} (hcfg : ConfigWF cfg)
    (hp : WdPos db) (hs : Step cfg db db') : WdPos db' := by
  cases hs with
  | register tid un fn ln rb nonce now h =>
    obtain ⟨-, hnone, hsome⟩ := register_state h
    cases rb with
    | none =>
      have hdb' := hnone rfl
      subst hdb'
      intro w hw
      rw [insertNewUser_withdrawals] at hw
      exact hp w hw
    | some r =>
      have hdb' := hsome r rfl
      subst hdb'
      intro w hw
      rw [add_referral_withdrawals, insertNewUser_withdrawals] at hw
      exact hp w hw
  | action tid base now today hpos h =>
    obtain ⟨u, hfind, hpol, hdb'⟩ := recordAction_ok h
    subst hdb'
    intro w hw
    rw [applyAction_withdrawals] at hw
    exact hp w hw
  | withdraw tid amount method mobile now h =>
    obtain ⟨u, hfind, hban, hmin, hbal, hdb'⟩ := create_withdrawal_ok h
    subst hdb'
    intro w hw
    rw [applyWithdraw_withdrawals, List.mem_append] at hw
    rcases hw with hw | hw
    · exact hp w hw
    · rw [List.mem_singleton] at hw
      subst hw
      show (0 : ℚ) < amount
      linarith [hcfg.min_pos]
  | transition wid ts now h =>
    obtain ⟨w, hfind, hlegal, hdb'⟩ := transition_ok h
    subst hdb'
    intro x hx
    rw [applyTransition_withdrawals, List.mem_map] at hx
    obtain ⟨y, hy, rfl⟩ := hx
    rw [restampWd_amount]
    exact hp y hy

theorem wdpos_reachable {cfg : Config} {db : DB} (hcfg : ConfigWF cfg)
    (hr : Reachable cfg db) : WdPos db := by
  induction hr with
  | init => intro w hw; cases hw
  | step db db' hr hs ih => exact wdpos_step hcfg ih hs

theorem effectiveAmount_nonneg {cfg : Config} {u : User} {base : ℚ}
    (hcfg : ConfigWF cfg) (hb : 0 ≤ base) : 0 ≤ effectiveAmount cfg u base := by
  unfold effectiveAmount
  split
  · exact mul_nonneg hb hcfg.premium_nonneg
  · exact hb

theorem creditUser_earned_le {amt : ℚ} (r : Nat) (v : User) (h : 0 ≤ amt) :
    v.total_earned ≤ (creditUser amt r v).total_earned := by
  unfold creditUser
  split
  · show v.total_earned ≤ v.total_earned + amt
    linarith
  · exact le_refl _

theorem actionUser_earned_le {tid : Int} {eff : ℚ} (now : Nat) (v : User)
    (h : 0 ≤ eff) : v.total_earned ≤ (actionUser tid eff now v).total_earned := by
  unfold actionUser
  split
  · show v.total_earned ≤ v.total_earned + eff
    linarith
  · exact le_refl _

theorem actionUser_ads_le (tid : Int) (eff : ℚ) (now : Nat) (v : User) :
    v.total_ads_watched ≤ (actionUser tid eff now v).total_ads_watched := by
  unfold actionUser
  split
  · exact Nat.le_succ _
  · exact le_refl _

theorem settleUser_wd_le {w : Withdrawal} (ts : WStatus) (v : User)
    (h : 0 ≤ w.amount) :
    v.total_withdrawn ≤ (settleUser w ts v).total_withdrawn := by
  unfold settleUser
  split
  · split
    · exact le_refl _
    · split
      · show v.total_withdrawn ≤ v.total_withdrawn + w.amount
        linarith
      · exact le_refl _
  · exact le_refl _

/-- Across one completed operation, `total_earned`, `total_withdrawn` and
`total_ads_watched` never decrease for the user row with a given id. -/
theorem mono_step {cfg : Config} {db db' : DB} (hcfg : ConfigWF cfg)
    (hinv : Inv db) (hwp : WdPos db) (hs : Step cfg db db') :
    ∀ u ∈ db.users, ∀ u' ∈ db'.users, u.id = u'.id →
      u.total_earned ≤ u'.total_earned ∧
      u.total_withdrawn ≤ u'.total_withdrawn ∧
      u.total_ads_watched ≤ u'.total_ads_watched := by
  cases hs with
  | register tid un fn ln rb nonce now h =>
    obtain ⟨-, hnone, hsome⟩ := register_state h
    cases rb with
    | none =>
      have hdb' := hnone rfl
      subst hdb'
      intro u hu u' hu' hid
      rw [insertNewUser_users] at hu'
      rcases List.mem_append.mp hu' with h1 | h1
      · have : u = u' := user_eq_of_id hinv.users_nodup hu h1 hid
        subst this
        exact ⟨le_refl _, le_refl _, le_refl _⟩
      · rw [List.mem_singleton] at h1
        subst h1
        have hlt := hinv.users_lt u hu
        rw [hid] at hlt
        exact absurd hlt (by simp [newUserRow])
    | some r =>
      have hdb' := hsome r rfl
      subst hdb'
      intro u hu u' hu' hid
      rcases add_referral_users_cases cfg
          (insertNewUser cfg db tid un fn ln (some r) nonce now) r now with hc | hc
      · rw [hc, insertNewUser_users, List.map_append, List.mem_append] at hu'
        rcases hu' with h1 | h1
        · rw [List.mem_map] at h1
          obtain ⟨x, hx, rfl⟩ := h1
          have hxid : u.id = x.id := by simpa using hid
          have : u = x := user_eq_of_id hinv.users_nodup hu hx hxid
          subst this
          refine ⟨creditUser_earned_le r u hcfg.referral_nonneg, ?_, ?_⟩
          · rw [creditUser_withdrawn]
          · rw [creditUser_ads]
        · rw [List.map_singleton, List.mem_singleton] at h1
          subst h1
          have hlt := hinv.users_lt u hu
          rw [hid] at hlt
          exact absurd hlt (by simp [newUserRow])
      · rw [hc, insertNewUser_users, List.mem_append] at hu'
        rcases hu' with h1 | h1
        · have : u = u' := user_eq_of_id hinv.users_nodup hu h1 hid
          subst this
          exact ⟨le_refl _, le_refl _, le_refl _⟩
        · rw [List.mem_singleton] at h1
          subst h1
          have hlt := hinv.users_lt u hu
          rw [hid] at hlt
          exact absurd hlt (by simp [newUserRow])
  | action tid base now today hpos h =>
    obtain ⟨u0, hfind, hpol, hdb'⟩ := recordAction_ok h
    subst hdb'
    intro u hu u' hu' hid
    rw [applyAction_users, List.mem_map] at hu'
    obtain ⟨x, hx, rfl⟩ := hu'
    have hxid : u.id = x.id := by simpa using hid
    have : u = x := user_eq_of_id hinv.users_nodup hu hx hxid
    subst this
    refine ⟨actionUser_earned_le now u
      (effectiveAmount_nonneg hcfg (le_of_lt hpos)), ?_,
      actionUser_ads_le tid _ now u⟩
    rw [actionUser_withdrawn]
  | withdraw tid amount method mobile now h =>
    obtain ⟨u0, hfind, hban, hmin, hbal, hdb'⟩ := create_withdrawal_ok h
    subst hdb'
    intro u hu u' hu' hid
    rw [applyWithdraw_users, List.mem_map] at hu'
    obtain ⟨x, hx, rfl⟩ := hu'
    have hxid : u.id = x.id := by simpa using hid
    have : u = x := user_eq_of_id hinv.users_nodup hu hx hxid
    subst this
    refine ⟨?_, ?_, ?_⟩
    · rw [holdUser_earned]
    · rw [holdUser_withdrawn]
    · rw [holdUser_ads]
  | transition wid ts now h =>
    obtain ⟨w, hfind, hlegal, hdb'⟩ := transition_ok h
    subst hdb'
    intro u hu u' hu' hid
    rw [applyTransition_users, List.mem_map] at hu'
    obtain ⟨x, hx, rfl⟩ := hu'
    have hxid : u.id = x.id := by simpa using hid
    have : u = x := user_eq_of_id hinv.users_nodup hu hx hxid
    subst this
    refine ⟨?_, ?_, ?_⟩
    · rw [settleUser_earned]
    · exact settleUser_wd_le ts u
        (le_of_lt (hwp w (List.mem_of_find?_eq_some hfind)))
    · rw [settleUser_ads]

@[simp] theorem creditUser_code (amt : ℚ) (r : Nat) (u : User) :
    (creditUser amt r u).referral_code = u.referral_code := by
  unfold creditUser; split <;> rfl

@[simp] theorem creditUser_referred (amt : ℚ) (r : Nat) (u : User) :
    (creditUser amt r u).referred_by = u.referred_by := by
  unfold creditUser; split <;> rfl

theorem length_filter_map {α : Type} (f : α → α) (p : α → Bool)
    (hp : ∀ x, p (f x) = p x) (l : List α) :
    ((l.map f).filter p).length = (l.filter p).length := by
  induction l with
  | nil => rfl
  | cons a t ih =>
    rw [List.map_cons, List.filter_cons, List.filter_cons, hp a]
    cases p a
    · simpa using ih
    · simpa using ih

/-- Claim C8: the referral statistics of the user-data read path —
`totalReferrals` and `activeReferrals`, translated from the two SQL queries
of `get_user_data` (src/app.py lines 453-462) — agree with the spec's
wording: the number of users directly referred by this user, and the number
of distinct referred users having at least one EarningEvent of any kind
(`specTotalReferrals`, `specActiveReferrals`). -/
theorem referral_stats_spec (db : DB) (uid : Nat) :
    totalReferrals db uid = specTotalReferrals db uid ∧
    activeReferrals db uid = specActiveReferrals db uid := by
  constructor
  · unfold totalReferrals specTotalReferrals
    rw [List.countP_eq_length_filter]
    congr 1
    apply List.filter_congr
    intro u _
    apply Bool.eq_iff_iff.mpr
    simp
  · unfold activeReferrals specActiveReferrals
    rw [List.countP_eq_length_filter]
    congr 1
    apply List.filter_congr
    intro u _
    apply Bool.eq_iff_iff.mpr
    simp [List.any_eq_true]

/-- Claim C10: reading today's earned amount for a user with no
daily-limit row for the day yields 0 (src/app.py lines 446-450: the
fetchone miss is mapped to 0) and the user-data endpoint succeeds with
`today_earned = 0`; the read path is a pure SELECT and creates no row by
construction (`get_user_data` returns only a `UserStats` value). -/
theorem today_earned_default_zero (cfg : Config) (db : DB) (tid : Int)
    (today : Nat) (u : User)
    (hfind : db.users.find? (fun v => v.telegram_id == tid) = some u)
    (hnorow : db.daily_limits.find?
      (fun d => d.user_id == u.id && d.date == today) = none) :
    todayEarned db u.id today = 0 ∧
    ∃ s, get_user_data cfg db tid today = some s ∧ s.today_earned = 0 := by
  have hte : todayEarned db u.id today = 0 := by
    unfold todayEarned
    rw [hnorow]
  refine ⟨hte, ?_⟩
  unfold get_user_data
  rw [hfind]
  exact ⟨_, rfl, hte⟩

/-- Claim C4: with a found user, `recordAction` computes the effective
amount by applying the premium multiplier to the base amount first
(`effectiveAmount`), and the Limit Policy is evaluated on that
post-multiplier amount; each Deny reason (UserBanned, CooldownActive,
DailyActionCapReached, DailyEarningCapReached) is returned exactly under
its spec condition, and every error outcome coincides with the pure
policy's verdict.  In this state-passing embedding an `.error` result
carries no new state, so a denial mutates nothing (no balance, totals,
EarningEvent or DailyCounter change). -/
theorem recordAction_denials (cfg : Config) (db : DB) (tid : Int) (u : User)
    (base : ℚ) (now today : Nat)
    (hfind : db.users.find? (fun v => v.telegram_id == tid) = some u) :
    (u.is_banned = true →
      recordAction cfg db tid base now today = .error .UserBanned) ∧
    (u.is_banned = false →
      cooldownRunning cfg (lastActionAt db u.id) now = true →
      recordAction cfg db tid base now today = .error .CooldownActive) ∧
    (u.is_banned = false →
      cooldownRunning cfg (lastActionAt db u.id) now = false →
      cfg.max_ads_per_day ≤ (counterOf db u.id today).ads_watched →
      recordAction cfg db tid base now today = .error .DailyActionCapReached) ∧
    (u.is_banned = false →
      cooldownRunning cfg (lastActionAt db u.id) now = false →
      (counterOf db u.id today).ads_watched < cfg.max_ads_per_day →
      cfg.daily_earning_limit <
        (counterOf db u.id today).earned_today + effectiveAmount cfg u base →
      recordAction cfg db tid base now today = .error .DailyEarningCapReached) ∧
    (∀ r, recordAction cfg db tid base now today = .error r →
      limitPolicy cfg u (counterOf db u.id today) (effectiveAmount cfg u base)
        (lastActionAt db u.id) now = some r) := by
  have hrun : recordAction cfg db tid base now today =
      (match limitPolicy cfg u (counterOf db u.id today)
          (effectiveAmount cfg u base) (lastActionAt db u.id) now with
       | some r => .error r
       | none => .ok (applyAction db tid u.id (effectiveAmount cfg u base) now today)) := by
    unfold recordAction
    rw [hfind]
  refine ⟨?_, ?_, ?_, ?_, ?_⟩
  · intro hban
    rw [hrun]
    unfold limitPolicy
    rw [if_pos hban]
  · intro hban hcool
    rw [hrun]
    unfold limitPolicy
    rw [if_neg (by simp [hban]), if_pos hcool]
  · intro hban hcool hcap
    rw [hrun]
    unfold limitPolicy
    rw [if_neg (by simp [hban]), if_neg (by simp [hcool]), if_pos hcap]
  · intro hban hcool hcap hearn
    rw [hrun]
    unfold limitPolicy
    rw [if_neg (by simp [hban]), if_neg (by simp [hcool]),
      if_neg (not_le.mpr hcap), if_pos hearn]
  · intro r hr
    rw [hrun] at hr
    cases hpol : limitPolicy cfg u (counterOf db u.id today)
        (effectiveAmount cfg u base) (lastActionAt db u.id) now with
    | some r2 =>
      rw [hpol] at hr
      simp only [Except.error.injEq] at hr
      rw [hr]
    | none =>
      rw [hpol] at hr
      exact absurd hr (by simp)

/-- Claim C5: with a found user, `create_withdrawal` fails with UserBanned
when the user is banned, BelowMinimum when the amount is under the
configured minimum, InsufficientBalance when the amount exceeds the
balance; on success it commits exactly the hold: the user's balance drops
by the amount, a `pending` request for that amount is appended, and no
user's total_withdrawn changes (total_withdrawn moves only on the `paid`
transition, see the transition theorem). -/
theorem create_withdrawal_spec (cfg : Config) (db : DB) (tid : Int) (u : User)
    (amount : ℚ) (method mobile : String) (now : Nat)
    (hfind : db.users.find? (fun v => v.telegram_id == tid) = some u) :
    (u.is_banned = true →
      create_withdrawal cfg db tid amount method mobile now = .error .UserBanned) ∧
    (u.is_banned = false → amount < cfg.minimum_withdrawal →
      create_withdrawal cfg db tid amount method mobile now = .error .BelowMinimum) ∧
    (u.is_banned = false → cfg.minimum_withdrawal ≤ amount →
      u.balance < amount →
      create_withdrawal cfg db tid amount method mobile now =
        .error .InsufficientBalance) ∧
    (u.is_banned = false → cfg.minimum_withdrawal ≤ amount →
      amount ≤ u.balance →
      create_withdrawal cfg db tid amount method mobile now =
        .ok (applyWithdraw db tid u.id amount method mobile now) ∧
      (∃ u' ∈ (applyWithdraw db tid u.id amount method mobile now).users,
        u'.id = u.id ∧ u'.balance = u.balance - amount ∧
        u'.total_withdrawn = u.total_withdrawn) ∧
      (applyWithdraw db tid u.id amount method mobile now).withdrawals =
        db.withdrawals ++ [newWdRow db u.id amount method mobile now] ∧
      (newWdRow db u.id amount method mobile now).status = WStatus.pending ∧
      (newWdRow db u.id amount method mobile now).amount = amount ∧
      (applyWithdraw db tid u.id amount method mobile now).users.map
          (fun v => v.total_withdrawn) = db.users.map (fun v => v.total_withdrawn)) := by
  have hrun : create_withdrawal cfg db tid amount method mobile now =
      (if u.is_banned then .error .UserBanned
       else if amount < cfg.minimum_withdrawal then .error .BelowMinimum
       else if u.balance < amount then .error .InsufficientBalance
       else .ok (applyWithdraw db tid u.id amount method mobile now)) := by
    unfold create_withdrawal
    rw [hfind]
  refine ⟨?_, ?_, ?_, ?_⟩
  · intro hban
    rw [hrun, if_pos hban]
  · intro hban hmin
    rw [hrun, if_neg (by simp [hban]), if_pos hmin]
  · intro hban hmin hbal
    rw [hrun, if_neg (by simp [hban]), if_neg (not_lt.mpr hmin), if_pos hbal]
  · intro hban hmin hbal
    have hutid : (u.telegram_id == tid) = true := by
      have h2 := List.find?_some hfind
      exact h2
    refine ⟨?_, ?_, rfl, rfl, rfl, ?_⟩
    · rw [hrun, if_neg (by simp [hban]), if_neg (not_lt.mpr hmin),
        if_neg (not_lt.mpr hbal)]
    · refine ⟨holdUser tid amount u, ?_, holdUser_id tid amount u, ?_,
        holdUser_withdrawn tid amount u⟩
      · rw [applyWithdraw_users]
        exact List.mem_map_of_mem _ (List.mem_of_find?_eq_some hfind)
      · unfold holdUser
        rw [if_pos hutid]
    · rw [applyWithdraw_users, List.map_map]
      apply List.map_congr_left
      intro x _
      simp [Function.comp]

theorem find?_wd_self {l : List Withdrawal}
    (hpw : l.Pairwise (fun a b => a.id ≠ b.id)) {w : Withdrawal} (hw : w ∈ l) :
    l.find? (fun x => x.id == w.id) = some w := by
  induction l with
  | nil => cases hw
  | cons a t ih =>
    rcases List.pairwise_cons.mp hpw with ⟨ha, hpt⟩
    rcases List.mem_cons.mp hw with rfl | hw'
    · rw [List.find?_cons_of_pos _ (by simp)]
    · rw [List.find?_cons_of_neg _ (by simp [ha w hw'])]
      exact ih hpt hw'

theorem transition_run {db : DB} {w : Withdrawal} (ts : WStatus) (now : Nat)
    (hfind : db.withdrawals.find? (fun x => x.id == w.id) = some w) :
    transitionWithdrawal db w.id ts now =
      if legalTransition w.status ts then .ok (applyTransition db w ts now)
      else .error .InvalidTransition := by
  unfold transitionWithdrawal
  rw [hfind]

/-- Configuration of the C1 held-balance scenario: welcome bonus 200,
minimum withdrawal 100, remaining settings at source defaults (src/app.py
lines 55-60, 218-219). -/
def cfgC1 : Config :=
  { ad_earning_rate := 5, referral_bonus := 10, minimum_withdrawal := 100,
    daily_earning_limit := 50, max_ads_per_day := 10, ad_cooldown := 60,
    welcome_bonus := 200, premium_multiplier := 3/2 }

/-- State after registering telegram user 1 under `cfgC1`. -/
def dbC1a : DB :=
  (register_user cfgC1 DB.empty 1 "u" "f" "l" none "A" 0).getD DB.empty

/-- State after user 1 then requests a withdrawal of 150. -/
def dbC1 : DB :=
  match create_withdrawal cfgC1 dbC1a 1 150 "bkash" "017" 1 with
  | .ok d => d
  | .error _ => DB.empty

theorem reachable_dbC1 : Reachable cfgC1 dbC1 :=
  Reachable.step dbC1a dbC1
    (Reachable.step DB.empty dbC1a Reachable.init
      (Step.register DB.empty dbC1a 1 "u" "f" "l" none "A" 0
        (by with_unfolding_all rfl)))
    (Step.withdraw dbC1a dbC1 1 150 "bkash" "017" 1
      (by with_unfolding_all rfl))

/-- Claim C1 (counterexample): two completed operations — registration with
welcome bonus 200, then a successful withdrawal request of 150 — commit a
state in which the user's balance is 50 while total_earned −
total_withdrawn is 200.  The equation `balance = total_earned −
total_withdrawn` does not hold after the withdrawal request, because the
request decrements balance immediately while total_withdrawn moves only on
the `paid` transition (spec §4.4). -/
theorem balance_identity_counterexample :
    Reachable cfgC1 dbC1 ∧
    dbC1.users.map (fun u => (u.balance, u.total_earned, u.total_withdrawn)) =
      [(50, 200, 0)] ∧
    ¬ ((50 : ℚ) = 200 - 0) := by
  refine ⟨reachable_dbC1, by with_unfolding_all rfl, by norm_num⟩

/-- Claim C1 (amended): after every completed operation (registration,
earning, withdrawal request, withdrawal transition), every user's balance
equals total_earned − total_withdrawn − (the summed amounts of that user's
pending and approved withdrawal requests).  When the user has no open
withdrawal request the held sum is 0 and the original equation holds. -/
theorem balance_identity_with_holds {cfg : Config} {db : DB}
    (hr : Reachable cfg db) (u : User) (hu : u ∈ db.users) :
    u.balance = u.total_earned - u.total_withdrawn - heldAmount db u.id :=
  (inv_reachable hr).bal_eq u hu

/-- The single user row of `dbC1`. -/
def userC1 : User :=
  { id := 1, telegram_id := 1, username := "u", first_name := "f",
    last_name := "l", referral_code := "REF1A", referred_by := none,
    balance := 50, total_earned := 200, total_withdrawn := 0,
    total_ads_watched := 0, last_active := 0, is_banned := false,
    is_premium := false }

/-- Witness for the amended C1 theorem at the concrete held-balance state:
50 = 200 − 0 − (held 150). -/
theorem balance_identity_with_holds_witness :
    userC1.balance = userC1.total_earned - userC1.total_withdrawn -
      heldAmount dbC1 userC1.id :=
  balance_identity_with_holds reachable_dbC1 userC1 (by
    have h : dbC1.users = [userC1] := by with_unfolding_all rfl
    rw [h]
    exact List.mem_singleton_self _)

/-- Claim C6: with unique row ids (any invariant-satisfying state),
`transitionWithdrawal` succeeds exactly on the four legal edges
pending→approved, pending→rejected, approved→paid, approved→rejected, and
every other edge — from a non-terminal status (such as pending→paid or
approved→pending) just as from a terminal one — fails with the
InvalidTransition error; in particular a request already terminal
(rejected or paid) can never be transitioned again.  On success the
request row carries the new status; a rejection restores the held amount
to the owner's balance leaving total_withdrawn unchanged, and a payment
adds the amount to the owner's total_withdrawn leaving balance unchanged. -/
theorem transitionWithdrawal_spec {db : DB} (hinv : Inv db) (w : Withdrawal)
    (u : User) (ts : WStatus) (now : Nat) (hw : w ∈ db.withdrawals)
    (hu : u ∈ db.users) (huid : u.id = w.user_id) :
    ((∃ db', transitionWithdrawal db w.id ts now = .ok db') ↔
      legalTransition w.status ts = true) ∧
    (legalTransition w.status ts = false →
      transitionWithdrawal db w.id ts now = .error .InvalidTransition) ∧
    (isTerminal w.status = true →
      transitionWithdrawal db w.id ts now = .error .InvalidTransition) ∧
    (∀ db', transitionWithdrawal db w.id ts now = .ok db' →
      (∃ w' ∈ db'.withdrawals, w'.id = w.id ∧ w'.status = ts ∧
        w'.amount = w.amount) ∧
      (ts = WStatus.rejected →
        ∃ u' ∈ db'.users, u'.id = u.id ∧ u'.balance = u.balance + w.amount ∧
          u'.total_withdrawn = u.total_withdrawn) ∧
      (ts = WStatus.paid →
        ∃ u' ∈ db'.users, u'.id = u.id ∧ u'.balance = u.balance ∧
          u'.total_withdrawn = u.total_withdrawn + w.amount)) := by
  have hfind := find?_wd_self hinv.wd_nodup hw
  have hbu : (u.id == w.user_id) = true := beq_iff_eq.mpr huid
  refine ⟨?_, ?_, ?_, ?_⟩
  · constructor
    · rintro ⟨db', hok⟩
      obtain ⟨w0, hfind0, hlegal, -⟩ := transition_ok hok
      rw [hfind] at hfind0
      rw [Option.some_inj] at hfind0
      rw [hfind0]
      exact hlegal
    · intro hlegal
      exact ⟨applyTransition db w ts now, by rw [transition_run ts now hfind, if_pos hlegal]⟩
  · intro hnl
    rw [transition_run ts now hfind, if_neg (by simp [hnl])]
  · intro hterm
    have hnl : legalTransition w.status ts = false := by
      cases hstat : w.status
      · rw [hstat] at hterm
        exact absurd hterm (by simp [isTerminal])
      · rw [hstat] at hterm
        exact absurd hterm (by simp [isTerminal])
      · cases ts <;> rfl
      · cases ts <;> rfl
    rw [transition_run ts now hfind, if_neg (by simp [hnl])]
  · intro db' hok
    obtain ⟨w0, hfind0, hlegal, hdb'⟩ := transition_ok hok
    rw [hfind] at hfind0
    rw [Option.some_inj] at hfind0
    subst hfind0
    subst hdb'
    refine ⟨?_, ?_, ?_⟩
    · refine ⟨restampWd w.id ts now w, ?_, restampWd_id w.id ts now w, ?_,
        restampWd_amount w.id ts now w⟩
      · rw [applyTransition_withdrawals]
        exact List.mem_map_of_mem _ hw
      · rw [restampWd_self]
    · rintro rfl
      refine ⟨settleUser w WStatus.rejected u, ?_, settleUser_id w _ u,
        settleUser_bal_rejected hbu, settleUser_wd_rejected hbu⟩
      rw [applyTransition_users]
      exact List.mem_map_of_mem _ hu
    · rintro rfl
      refine ⟨settleUser w WStatus.paid u, ?_, settleUser_id w _ u,
        settleUser_bal_paid hbu, settleUser_wd_paid hbu⟩
      rw [applyTransition_users]
      exact List.mem_map_of_mem _ hu

/-- Claim C7: with a well-formed configuration, across every completed
operation from a reachable state, `total_earned`, `total_withdrawn` and
`total_ads_watched` are non-decreasing for every user (rows matched by
id); in particular a withdrawal rejection restores balance without
decreasing total_withdrawn. -/
theorem totals_monotone {cfg : Config} {db db' : DB} (hcfg : ConfigWF cfg)
    (hr : Reachable cfg db) (hs : Step cfg db db') (u u' : User)
    (hu : u ∈ db.users) (hu' : u' ∈ db'.users) (hid : u.id = u'.id) :
    u.total_earned ≤ u'.total_earned ∧
    u.total_withdrawn ≤ u'.total_withdrawn ∧
    u.total_ads_watched ≤ u'.total_ads_watched :=
  mono_step hcfg (inv_reachable hr) (wdpos_reachable hcfg hr) hs u hu u' hu' hid

theorem creditUser_eq_of_ne {amt : ℚ} {r : Nat} {u : User} (h : u.id ≠ r) :
    creditUser amt r u = u := by
  unfold creditUser
  simp [beq_eq_false_iff_ne.mpr h]

theorem creditUser_bal_of_eq {amt : ℚ} {r : Nat} {u : User}
    (h : (u.id == r) = true) :
    (creditUser amt r u).balance = u.balance + amt := by
  unfold creditUser
  rw [if_pos h]

theorem creditUser_earned_of_eq {amt : ℚ} {r : Nat} {u : User}
    (h : (u.id == r) = true) :
    (creditUser amt r u).total_earned = u.total_earned + amt := by
  unfold creditUser
  rw [if_pos h]

theorem add_referral_pos {cfg : Config} {db : DB} {r : Nat} (now : Nat)
    (hg : db.users.any (fun u => u.id == r) = true) :
    (add_referral_earning cfg db r now).users =
        db.users.map (creditUser cfg.referral_bonus r) ∧
    (add_referral_earning cfg db r now).earnings =
        db.earnings ++ [refRow cfg r now] := by
  unfold add_referral_earning
  rw [if_pos hg]
  exact ⟨rfl, rfl⟩

theorem add_referral_earnings_cases (cfg : Config) (db : DB) (r now : Nat) :
    (add_referral_earning cfg db r now).earnings =
        db.earnings ++ [refRow cfg r now] ∨
      (add_referral_earning cfg db r now).earnings = db.earnings := by
  unfold add_referral_earning
  split
  · exact Or.inl rfl
  · exact Or.inr rfl

/-- A successful registration leaves a user row carrying the registered
telegram id. -/
theorem register_new_user_mem {cfg : Config} {db db' : DB} {tid : Int}
    {un fn ln : String} {rb : Option Nat} {nonce : String} {now : Nat}
    (h : register_user cfg db tid un fn ln rb nonce now = some db') :
    ∃ u ∈ db'.users, u.telegram_id = tid := by
  obtain ⟨-, hnone, hsome⟩ := register_state h
  cases rb with
  | none =>
    have hdb' := hnone rfl
    subst hdb'
    refine ⟨newUserRow cfg db tid un fn ln none nonce now, ?_, rfl⟩
    rw [insertNewUser_users]
    exact List.mem_append_right _ (List.mem_singleton_self _)
  | some r =>
    have hdb' := hsome r rfl
    subst hdb'
    rcases add_referral_users_cases cfg
        (insertNewUser cfg db tid un fn ln (some r) nonce now) r now with hc | hc
    · refine ⟨creditUser cfg.referral_bonus r
        (newUserRow cfg db tid un fn ln (some r) nonce now), ?_,
        by rw [creditUser_tid]; rfl⟩
      rw [hc]
      apply List.mem_map_of_mem
      rw [insertNewUser_users]
      exact List.mem_append_right _ (List.mem_singleton_self _)
    · refine ⟨newUserRow cfg db tid un fn ln (some r) nonce now, ?_, rfl⟩
      rw [hc, insertNewUser_users]
      exact List.mem_append_right _ (List.mem_singleton_self _)

/-- Registration of an already-present telegram id always fails (the
UNIQUE-constraint path of src/app.py lines 294-295). -/
theorem register_duplicate_none {cfg : Config} {db : DB} {tid : Int}
    (un2 fn2 ln2 : String) (rb2 : Option Nat) (nonce2 : String) (now2 : Nat)
    (hmem : ∃ u ∈ db.users, u.telegram_id = tid) :
    register_user cfg db tid un2 fn2 ln2 rb2 nonce2 now2 = none := by
  obtain ⟨u, hu, ht⟩ := hmem
  unfold register_user
  rw [if_pos (List.any_eq_true.mpr ⟨u, hu, by simp [ht]⟩)]

/-- Configuration of the C2 counterexample: the source's own default
welcome bonus of 0 (src/app.py line 218), other settings at defaults. -/
def cfgC2 : Config :=
  { ad_earning_rate := 5, referral_bonus := 10, minimum_withdrawal := 100,
    daily_earning_limit := 50, max_ads_per_day := 10, ad_cooldown := 60,
    welcome_bonus := 0, premium_multiplier := 3/2 }

/-- State after registering telegram user 1 under `cfgC2`. -/
def dbC2 : DB :=
  (register_user cfgC2 DB.empty 1 "u" "f" "l" none "A" 0).getD DB.empty

/-- Claim C2 (counterexample): with the configured welcome bonus 0 — the
source's own default setting — registering a fresh id succeeds and the
duplicate attempt fails, yet across both calls zero welcome-bonus
EarningEvents exist, not "exactly one" as claimed. -/
theorem duplicate_registration_counterexample :
    register_user cfgC2 DB.empty 1 "u" "f" "l" none "A" 0 = some dbC2 ∧
    register_user cfgC2 dbC2 1 "x" "y" "z" none "B" 1 = none ∧
    (dbC2.users.filter (fun u => u.telegram_id == 1)).length = 1 ∧
    (dbC2.earnings.filter
      (fun e => e.user_id == 1 && e.kind == "bonus")).length = 0 ∧
    (dbC2.earnings.filter
      (fun e => e.user_id == 1 && e.kind == "bonus")).length ≠ 1 := by
  refine ⟨by with_unfolding_all rfl, by with_unfolding_all rfl,
    by with_unfolding_all rfl, by with_unfolding_all rfl, ?_⟩
  have h : (dbC2.earnings.filter
      (fun e => e.user_id == 1 && e.kind == "bonus")).length = 0 := by
    with_unfolding_all rfl
  omega

/-- Claim C2 (amended): re-registering an existing external id always fails
with DuplicateUser (the UNIQUE-constraint IntegrityError, surfaced as
False/`none` by src/app.py lines 294-295) and leaves no partial state:
after both calls exactly one user row with that id exists, the successful
call appended exactly one welcome-bonus EarningEvent when the configured
welcome bonus is positive — and none otherwise — and it appended at most
one referral-bonus EarningEvent. -/
theorem duplicate_registration_idempotent (cfg : Config) (db db' : DB)
    (tid : Int) (un fn ln un2 fn2 ln2 : String) (rb rb2 : Option Nat)
    (nonce nonce2 : String) (now now2 : Nat)
    (h : register_user cfg db tid un fn ln rb nonce now = some db') :
    register_user cfg db' tid un2 fn2 ln2 rb2 nonce2 now2 = none ∧
    (db'.users.filter (fun u => u.telegram_id == tid)).length = 1 ∧
    db'.earnings.take db.earnings.length = db.earnings ∧
    ((db'.earnings.drop db.earnings.length).filter
      (fun e => e.kind == "bonus")).length =
      (if 0 < cfg.welcome_bonus then 1 else 0) ∧
    ((db'.earnings.drop db.earnings.length).filter
      (fun e => e.kind == "referral-bonus")).length ≤ 1 := by
  obtain ⟨hfresh, hnone, hsome⟩ := register_state h
  have husers1 : ((db.users ++
      [newUserRow cfg db tid un fn ln rb nonce now]).filter
      (fun u => u.telegram_id == tid)).length = 1 := by
    rw [List.filter_append]
    have h1 : db.users.filter (fun u => u.telegram_id == tid) = [] :=
      List.filter_eq_nil_iff.mpr (fun u hu => by simp [(hfresh u hu).1])
    rw [h1]
    simp [newUserRow]
  refine ⟨register_duplicate_none un2 fn2 ln2 rb2 nonce2 now2
    (register_new_user_mem h), ?_⟩
  cases rb with
  | none =>
    have hdb' := hnone rfl
    subst hdb'
    refine ⟨?_, ?_, ?_, ?_⟩
    · rw [insertNewUser_users]
      exact husers1
    · rw [insertNewUser_earnings, List.take_left]
    · rw [insertNewUser_earnings, List.drop_left]
      by_cases hwb : 0 < cfg.welcome_bonus
      · simp [hwb, welcomeRow]
      · simp [hwb]
    · rw [insertNewUser_earnings, List.drop_left]
      by_cases hwb : 0 < cfg.welcome_bonus
      · simp [hwb, welcomeRow]
      · simp [hwb]
  | some r =>
    have hdb' := hsome r rfl
    subst hdb'
    refine ⟨?_, ?_, ?_, ?_⟩
    · rcases add_referral_users_cases cfg
          (insertNewUser cfg db tid un fn ln (some r) nonce now) r now with hc | hc
      · rw [hc, length_filter_map _ _ (fun x => by rw [creditUser_tid]),
          insertNewUser_users]
        exact husers1
      · rw [hc, insertNewUser_users]
        exact husers1
    · rcases add_referral_earnings_cases cfg
          (insertNewUser cfg db tid un fn ln (some r) nonce now) r now with he | he
      · rw [he, insertNewUser_earnings, List.append_assoc, List.take_left]
      · rw [he, insertNewUser_earnings, List.take_left]
    · rcases add_referral_earnings_cases cfg
          (insertNewUser cfg db tid un fn ln (some r) nonce now) r now with he | he
      · rw [he, insertNewUser_earnings, List.append_assoc, List.drop_left,
          List.filter_append]
        by_cases hwb : 0 < cfg.welcome_bonus
        · simp [hwb, welcomeRow, refRow]
        · simp [hwb, refRow]
      · rw [he, insertNewUser_earnings, List.drop_left]
        by_cases hwb : 0 < cfg.welcome_bonus
        · simp [hwb, welcomeRow]
        · simp [hwb]
    · rcases add_referral_earnings_cases cfg
          (insertNewUser cfg db tid un fn ln (some r) nonce now) r now with he | he
      · rw [he, insertNewUser_earnings, List.append_assoc, List.drop_left,
          List.filter_append]
        by_cases hwb : 0 < cfg.welcome_bonus
        · simp [hwb, welcomeRow, refRow]
        · simp [hwb, refRow]
      · rw [he, insertNewUser_earnings, List.drop_left]
        by_cases hwb : 0 < cfg.welcome_bonus
        · simp [hwb, welcomeRow]
        · simp [hwb]

/-- Claim C3: a successful registration (with the referrer, when supplied,
resolved against an existing user, and the state satisfying the ledger
invariant) creates the new user with a freshly generated referral code
unique in the resulting table, with `balance = total_earned = welcome
bonus` and `total_withdrawn = 0`; it appends exactly one welcome-bonus
EarningEvent when the configured bonus is positive (none otherwise); and
in the same atomic operation it credits the resolved referrer's balance
and total_earned by the configured referral bonus with exactly one
referral-bonus EarningEvent for that referrer. -/
theorem register_user_creates_and_credits {cfg : Config} {db db' : DB}
    {tid : Int} {un fn ln : String} {rb : Option Nat} {nonce : String}
    {now : Nat} (hinv : Inv db)
    (hrb : rb = none ∨ ∃ v ∈ db.users, rb = some v.id)
    (h : register_user cfg db tid un fn ln rb nonce now = some db') :
    (∀ u ∈ db.users, u.referral_code ≠ referralCode tid nonce) ∧
    (db'.users.filter
      (fun u => u.referral_code == referralCode tid nonce)).length = 1 ∧
    (∃ nu ∈ db'.users, nu.id = db.next_user_id ∧ nu.telegram_id = tid ∧
      nu.referral_code = referralCode tid nonce ∧ nu.referred_by = rb ∧
      nu.balance = cfg.welcome_bonus ∧ nu.total_earned = cfg.welcome_bonus ∧
      nu.total_withdrawn = 0) ∧
    ((db'.earnings.drop db.earnings.length).filter
      (fun e => e.user_id == db.next_user_id && e.kind == "bonus")).length =
      (if 0 < cfg.welcome_bonus then 1 else 0) ∧
    (∀ v ∈ db.users, rb = some v.id →
      ((db'.earnings.drop db.earnings.length).filter
        (fun e => e.user_id == v.id && e.kind == "referral-bonus")).length = 1 ∧
      ∃ v' ∈ db'.users, v'.id = v.id ∧
        v'.balance = v.balance + cfg.referral_bonus ∧
        v'.total_earned = v.total_earned + cfg.referral_bonus) := by
  obtain ⟨hfresh, hnone, hsome⟩ := register_state h
  have hcode1 : ((db.users ++
      [newUserRow cfg db tid un fn ln rb nonce now]).filter
      (fun u => u.referral_code == referralCode tid nonce)).length = 1 := by
    rw [List.filter_append]
    have h1 : db.users.filter
        (fun u => u.referral_code == referralCode tid nonce) = [] :=
      List.filter_eq_nil_iff.mpr (fun u hu => by simp [(hfresh u hu).2])
    rw [h1]
    simp [newUserRow]
  refine ⟨fun u hu => (hfresh u hu).2, ?_⟩
  cases rb with
  | none =>
    have hdb' := hnone rfl
    subst hdb'
    refine ⟨?_, ?_, ?_, ?_⟩
    · rw [insertNewUser_users]
      exact hcode1
    · refine ⟨newUserRow cfg db tid un fn ln none nonce now, ?_,
        rfl, rfl, rfl, rfl, rfl, rfl, rfl⟩
      rw [insertNewUser_users]
      exact List.mem_append_right _ (List.mem_singleton_self _)
    · rw [insertNewUser_earnings, List.drop_left]
      by_cases hwb : 0 < cfg.welcome_bonus
      · simp [hwb, welcomeRow]
      · simp [hwb]
    · intro v hv hveq
      exact absurd hveq (by simp)
  | some r =>
    have hdb' := hsome r rfl
    subst hdb'
    obtain ⟨v0, hv0, hv0eq⟩ := hrb.resolve_left (by simp)
    have hr : r = v0.id := by simpa using hv0eq
    have hrlt : r < db.next_user_id := by
      rw [hr]
      exact hinv.users_lt v0 hv0
    have hguard : (insertNewUser cfg db tid un fn ln (some r) nonce now).users.any
        (fun u => u.id == r) = true := by
      rw [insertNewUser_users]
      exact List.any_eq_true.mpr ⟨v0, List.mem_append_left _ hv0, by simp [hr]⟩
    obtain ⟨husers, hearn⟩ := add_referral_pos now hguard
    refine ⟨?_, ?_, ?_, ?_⟩
    · rw [husers, length_filter_map _ _ (fun x => by rw [creditUser_code]),
        insertNewUser_users]
      exact hcode1
    · have hnocredit : creditUser cfg.referral_bonus r
          (newUserRow cfg db tid un fn ln (some r) nonce now) =
          newUserRow cfg db tid un fn ln (some r) nonce now :=
        creditUser_eq_of_ne (by
          show db.next_user_id ≠ r
          omega)
      refine ⟨newUserRow cfg db tid un fn ln (some r) nonce now, ?_,
        rfl, rfl, rfl, rfl, rfl, rfl, rfl⟩
      rw [husers]
      refine List.mem_map.mpr
        ⟨newUserRow cfg db tid un fn ln (some r) nonce now, ?_, hnocredit⟩
      rw [insertNewUser_users]
      exact List.mem_append_right _ (List.mem_singleton_self _)
    · rw [hearn, insertNewUser_earnings, List.append_assoc, List.drop_left,
        List.filter_append]
      have hrne : (r == db.next_user_id) = false :=
        beq_eq_false_iff_ne.mpr (by omega)
      by_cases hwb : 0 < cfg.welcome_bonus
      · simp [hwb, welcomeRow, refRow, hrne]
      · simp [hwb, refRow, hrne]
    · intro v hv hveq
      have hrv : r = v.id := by simpa using hveq
      constructor
      · rw [hearn, insertNewUser_earnings, List.append_assoc, List.drop_left,
          List.filter_append]
        by_cases hwb : 0 < cfg.welcome_bonus
        · simp [hwb, welcomeRow, refRow, hrv]
        · simp [hwb, refRow, hrv]
      · refine ⟨creditUser cfg.referral_bonus r v, ?_, by rw [creditUser_id],
          creditUser_bal_of_eq (beq_iff_eq.mpr hrv.symm),
          creditUser_earned_of_eq (beq_iff_eq.mpr hrv.symm)⟩
        rw [husers]
        apply List.mem_map_of_mem
        rw [insertNewUser_users]
        exact List.mem_append_left _ hv

/-- Configuration of the C9/C10 scenario: the source defaults (ad rate 5,
welcome bonus 0, src/app.py lines 55-60 and 218-219). -/
def cfgC9 : Config :=
  { ad_earning_rate := 5, referral_bonus := 10, minimum_withdrawal := 100,
    daily_earning_limit := 50, max_ads_per_day := 10, ad_cooldown := 60,
    welcome_bonus := 0, premium_multiplier := 3/2 }

/-- State after registering telegram user 1 under `cfgC9`. -/
def dbC9a : DB :=
  (register_user cfgC9 DB.empty 1 "u" "f" "l" none "A" 0).getD DB.empty

/-- State after user 1 then completes one counted action of amount 5. -/
def dbC9 : DB :=
  match recordAction cfgC9 dbC9a 1 5 0 0 with
  | .ok d => d
  | .error _ => DB.empty

theorem reachable_dbC9 : Reachable cfgC9 dbC9 :=
  Reachable.step dbC9a dbC9
    (Reachable.step DB.empty dbC9a Reachable.init
      (Step.register DB.empty dbC9a 1 "u" "f" "l" none "A" 0
        (by with_unfolding_all rfl)))
    (Step.action dbC9a dbC9 1 5 0 0 (by norm_num) (by with_unfolding_all rfl))

/-- The stats served for user 1 in `dbC9`. -/
def statsC9 : UserStats :=
  { today_earned := 5, total_referrals := 0, active_referrals := 0,
    referral_earnings := -5 }

/-- The user row of `dbC9a` (freshly registered, welcome bonus 0). -/
def uC9a : User :=
  { id := 1, telegram_id := 1, username := "u", first_name := "f",
    last_name := "l", referral_code := "REF1A", referred_by := none,
    balance := 0, total_earned := 0, total_withdrawn := 0,
    total_ads_watched := 0, last_active := 0, is_banned := false,
    is_premium := false }

/-- The user row of `dbC9` (one counted action of amount 5). -/
def uC9 : User :=
  { id := 1, telegram_id := 1, username := "u", first_name := "f",
    last_name := "l", referral_code := "REF1A", referred_by := none,
    balance := 5, total_earned := 5, total_withdrawn := 0,
    total_ads_watched := 1, last_active := 0, is_banned := false,
    is_premium := false }

/-- Claim C9: the user-stats endpoint reports `referral_earnings` as
exactly total_earned − today's earned amount − total_ads_watched × the
configured base ad rate (src/app.py line 483); and in the reachable state
`dbC9` — one counted action of amount 5 on the day queried — this derived
value is −5: negative, and different from the sum of the user's
referral-bonus EarningEvent amounts (which is 0). -/
theorem referral_earnings_formula (cfg : Config) (db : DB) (tid : Int)
    (today : Nat) (u : User) (s : UserStats)
    (hfind : db.users.find? (fun v => v.telegram_id == tid) = some u)
    (hs : get_user_data cfg db tid today = some s) :
    s.referral_earnings = u.total_earned - s.today_earned -
      (u.total_ads_watched : ℚ) * cfg.ad_earning_rate ∧
    (Reachable cfgC9 dbC9 ∧ get_user_data cfgC9 dbC9 1 0 = some statsC9 ∧
      statsC9.referral_earnings < 0 ∧
      statsC9.referral_earnings ≠ referralSum dbC9 1) := by
  constructor
  · unfold get_user_data at hs
    rw [hfind] at hs
    simp only [Option.some_inj] at hs
    subst hs
    rfl
  · refine ⟨reachable_dbC9, by with_unfolding_all rfl, ?_, ?_⟩
    · have h : statsC9.referral_earnings = -5 := rfl
      rw [h]
      norm_num
    · have h1 : statsC9.referral_earnings = -5 := rfl
      have h2 : referralSum dbC9 1 = 0 := by with_unfolding_all rfl
      rw [h1, h2]
      norm_num

/-- Witness for the C9 theorem at the concrete state `dbC9`: the served
stats satisfy the formula, and the derived referral earnings are −5 < 0
while no referral-bonus event exists. -/
theorem referral_earnings_formula_witness :
    statsC9.referral_earnings = uC9.total_earned - statsC9.today_earned -
      (uC9.total_ads_watched : ℚ) * cfgC9.ad_earning_rate ∧
    (Reachable cfgC9 dbC9 ∧ get_user_data cfgC9 dbC9 1 0 = some statsC9 ∧
      statsC9.referral_earnings < 0 ∧
      statsC9.referral_earnings ≠ referralSum dbC9 1) :=
  referral_earnings_formula cfgC9 dbC9 1 0 uC9 statsC9
    (by with_unfolding_all rfl) (by with_unfolding_all rfl)

/-- Witness for the C10 theorem at `dbC9a`: a registered user with no
daily row for day 0 gets `today_earned = 0` from the stats endpoint. -/
theorem today_earned_default_zero_witness :
    todayEarned dbC9a uC9a.id 0 = 0 ∧
    ∃ s, get_user_data cfgC9 dbC9a 1 0 = some s ∧ s.today_earned = 0 :=
  today_earned_default_zero cfgC9 dbC9a 1 0 uC9a
    (by with_unfolding_all rfl) (by with_unfolding_all rfl)

/-- A banned user row used to exercise the Limit Policy denial. -/
def uC4 : User :=
  { id := 1, telegram_id := 9, username := "u", first_name := "f",
    last_name := "l", referral_code := "REF9Z", referred_by := none,
    balance := 0, total_earned := 0, total_withdrawn := 0,
    total_ads_watched := 0, last_active := 0, is_banned := true,
    is_premium := false }

/-- A one-user state whose only user is banned. -/
def dbC4 : DB :=
  { users := [uC4], earnings := [], withdrawals := [], daily_limits := [],
    next_user_id := 2, next_withdrawal_id := 1 }

/-- Witness for the C4 theorem at a banned user: each denial clause holds
at the concrete state (the banned clause fires; the others hold under
their hypotheses). -/
theorem recordAction_denials_witness :
    (uC4.is_banned = true →
      recordAction cfgC9 dbC4 9 5 0 0 = .error .UserBanned) ∧
    (uC4.is_banned = false →
      cooldownRunning cfgC9 (lastActionAt dbC4 uC4.id) 0 = true →
      recordAction cfgC9 dbC4 9 5 0 0 = .error .CooldownActive) ∧
    (uC4.is_banned = false →
      cooldownRunning cfgC9 (lastActionAt dbC4 uC4.id) 0 = false →
      cfgC9.max_ads_per_day ≤ (counterOf dbC4 uC4.id 0).ads_watched →
      recordAction cfgC9 dbC4 9 5 0 0 = .error .DailyActionCapReached) ∧
    (uC4.is_banned = false →
      cooldownRunning cfgC9 (lastActionAt dbC4 uC4.id) 0 = false →
      (counterOf dbC4 uC4.id 0).ads_watched < cfgC9.max_ads_per_day →
      cfgC9.daily_earning_limit <
        (counterOf dbC4 uC4.id 0).earned_today + effectiveAmount cfgC9 uC4 5 →
      recordAction cfgC9 dbC4 9 5 0 0 = .error .DailyEarningCapReached) ∧
    (∀ r, recordAction cfgC9 dbC4 9 5 0 0 = .error r →
      limitPolicy cfgC9 uC4 (counterOf dbC4 uC4.id 0)
        (effectiveAmount cfgC9 uC4 5) (lastActionAt dbC4 uC4.id) 0 = some r) :=
  recordAction_denials cfgC9 dbC4 9 uC4 5 0 0 (by with_unfolding_all rfl)

/-- Configuration of the C5 boundary scenario: welcome bonus 100, minimum
withdrawal 100. -/
def cfgC5 : Config :=
  { ad_earning_rate := 5, referral_bonus := 10, minimum_withdrawal := 100,
    daily_earning_limit := 50, max_ads_per_day := 10, ad_cooldown := 60,
    welcome_bonus := 100, premium_multiplier := 3/2 }

/-- State after registering telegram user 1 under `cfgC5` (balance 100). -/
def dbC5 : DB :=
  (register_user cfgC5 DB.empty 1 "u" "f" "l" none "A" 0).getD DB.empty

/-- The user row of `dbC5`. -/
def uC5 : User :=
  { id := 1, telegram_id := 1, username := "u", first_name := "f",
    last_name := "l", referral_code := "REF1A", referred_by := none,
    balance := 100, total_earned := 100, total_withdrawn := 0,
    total_ads_watched := 0, last_active := 0, is_banned := false,
    is_premium := false }

/-- Witness for the C5 theorem with amount 101 against balance 100 and
minimum 100: the InsufficientBalance clause fires at this input. -/
theorem create_withdrawal_spec_witness :
    (uC5.is_banned = true →
      create_withdrawal cfgC5 dbC5 1 101 "bkash" "017" 1 = .error .UserBanned) ∧
    (uC5.is_banned = false → (101 : ℚ) < cfgC5.minimum_withdrawal →
      create_withdrawal cfgC5 dbC5 1 101 "bkash" "017" 1 = .error .BelowMinimum) ∧
    (uC5.is_banned = false → cfgC5.minimum_withdrawal ≤ 101 →
      uC5.balance < 101 →
      create_withdrawal cfgC5 dbC5 1 101 "bkash" "017" 1 =
        .error .InsufficientBalance) ∧
    (uC5.is_banned = false → cfgC5.minimum_withdrawal ≤ 101 →
      (101 : ℚ) ≤ uC5.balance →
      create_withdrawal cfgC5 dbC5 1 101 "bkash" "017" 1 =
        .ok (applyWithdraw dbC5 1 uC5.id 101 "bkash" "017" 1) ∧
      (∃ u' ∈ (applyWithdraw dbC5 1 uC5.id 101 "bkash" "017" 1).users,
        u'.id = uC5.id ∧ u'.balance = uC5.balance - 101 ∧
        u'.total_withdrawn = uC5.total_withdrawn) ∧
      (applyWithdraw dbC5 1 uC5.id 101 "bkash" "017" 1).withdrawals =
        dbC5.withdrawals ++ [newWdRow dbC5 uC5.id 101 "bkash" "017" 1] ∧
      (newWdRow dbC5 uC5.id 101 "bkash" "017" 1).status = WStatus.pending ∧
      (newWdRow dbC5 uC5.id 101 "bkash" "017" 1).amount = 101 ∧
      (applyWithdraw dbC5 1 uC5.id 101 "bkash" "017" 1).users.map
          (fun v => v.total_withdrawn) =
        dbC5.users.map (fun v => v.total_withdrawn)) :=
  create_withdrawal_spec cfgC5 dbC5 1 uC5 101 "bkash" "017" 1
    (by with_unfolding_all rfl)

/-- Configuration of the withdrawal round-trip scenario: welcome bonus 100,
minimum withdrawal 10. -/
def cfgRT : Config :=
  { ad_earning_rate := 5, referral_bonus := 10, minimum_withdrawal := 10,
    daily_earning_limit := 50, max_ads_per_day := 10, ad_cooldown := 60,
    welcome_bonus := 100, premium_multiplier := 3/2 }

theorem cfgRT_wf : ConfigWF cfgRT :=
  ⟨by norm_num [cfgRT], by norm_num [cfgRT], by norm_num [cfgRT]⟩

/-- State after registering telegram user 7 under `cfgRT` (balance 100). -/
def dbRT0 : DB :=
  (register_user cfgRT DB.empty 7 "u" "f" "l" none "B" 0).getD DB.empty

/-- State after user 7 then requests a withdrawal of 50 (balance 50, one
pending request). -/
def dbRT1 : DB :=
  match create_withdrawal cfgRT dbRT0 7 50 "bkash" "017" 1 with
  | .ok d => d
  | .error _ => DB.empty

/-- State after the pending request is rejected (balance restored to 100). -/
def dbRTrej : DB :=
  match transitionWithdrawal dbRT1 1 WStatus.rejected 2 with
  | .ok d => d
  | .error _ => DB.empty

/-- The pending withdrawal row of `dbRT1`. -/
def wRT : Withdrawal :=
  { id := 1, user_id := 1, amount := 50, method := "bkash",
    mobile_number := "017", status := WStatus.pending, requested_at := 1,
    processed_at := none }

/-- The user row of `dbRT1` (holding 50 against a pending request). -/
def uRT1 : User :=
  { id := 1, telegram_id := 7, username := "u", first_name := "f",
    last_name := "l", referral_code := "REF7B", referred_by := none,
    balance := 50, total_earned := 100, total_withdrawn := 0,
    total_ads_watched := 0, last_active := 0, is_banned := false,
    is_premium := false }

/-- The user row of `dbRTrej` (hold returned after rejection). -/
def uRTrej : User :=
  { id := 1, telegram_id := 7, username := "u", first_name := "f",
    last_name := "l", referral_code := "REF7B", referred_by := none,
    balance := 100, total_earned := 100, total_withdrawn := 0,
    total_ads_watched := 0, last_active := 0, is_banned := false,
    is_premium := false }

theorem reachable_dbRT1 : Reachable cfgRT dbRT1 :=
  Reachable.step dbRT0 dbRT1
    (Reachable.step DB.empty dbRT0 Reachable.init
      (Step.register DB.empty dbRT0 7 "u" "f" "l" none "B" 0
        (by with_unfolding_all rfl)))
    (Step.withdraw dbRT0 dbRT1 7 50 "bkash" "017" 1
      (by with_unfolding_all rfl))

theorem mem_wRT : wRT ∈ dbRT1.withdrawals := by
  have h : dbRT1.withdrawals = [wRT] := by with_unfolding_all rfl
  rw [h]
  exact List.mem_singleton_self _

theorem mem_uRT1 : uRT1 ∈ dbRT1.users := by
  have h : dbRT1.users = [uRT1] := by with_unfolding_all rfl
  rw [h]
  exact List.mem_singleton_self _

theorem mem_uRTrej : uRTrej ∈ dbRTrej.users := by
  have h : dbRTrej.users = [uRTrej] := by with_unfolding_all rfl
  rw [h]
  exact List.mem_singleton_self _

/-- Witness for the C6 theorem at the round-trip state: rejecting the
pending request of 50 held by the user with balance 50 is legal and, on
the committed state, restores balance to 100 without touching
total_withdrawn. -/
theorem transitionWithdrawal_spec_witness :
    ((∃ db', transitionWithdrawal dbRT1 wRT.id WStatus.rejected 2 = .ok db') ↔
      legalTransition wRT.status WStatus.rejected = true) ∧
    (legalTransition wRT.status WStatus.rejected = false →
      transitionWithdrawal dbRT1 wRT.id WStatus.rejected 2 =
        .error .InvalidTransition) ∧
    (isTerminal wRT.status = true →
      transitionWithdrawal dbRT1 wRT.id WStatus.rejected 2 =
        .error .InvalidTransition) ∧
    (∀ db', transitionWithdrawal dbRT1 wRT.id WStatus.rejected 2 = .ok db' →
      (∃ w' ∈ db'.withdrawals, w'.id = wRT.id ∧ w'.status = WStatus.rejected ∧
        w'.amount = wRT.amount) ∧
      (WStatus.rejected = WStatus.rejected →
        ∃ u' ∈ db'.users, u'.id = uRT1.id ∧
          u'.balance = uRT1.balance + wRT.amount ∧
          u'.total_withdrawn = uRT1.total_withdrawn) ∧
      (WStatus.rejected = WStatus.paid →
        ∃ u' ∈ db'.users, u'.id = uRT1.id ∧ u'.balance = uRT1.balance ∧
          u'.total_withdrawn = uRT1.total_withdrawn + wRT.amount)) :=
  transitionWithdrawal_spec (inv_reachable reachable_dbRT1) wRT uRT1
    WStatus.rejected 2 mem_wRT mem_uRT1 rfl

/-- Witness for the C7 theorem across the rejection step: the user's
totals do not decrease when the hold is returned. -/
theorem totals_monotone_witness :
    uRT1.total_earned ≤ uRTrej.total_earned ∧
    uRT1.total_withdrawn ≤ uRTrej.total_withdrawn ∧
    uRT1.total_ads_watched ≤ uRTrej.total_ads_watched :=
  totals_monotone cfgRT_wf reachable_dbRT1
    (Step.transition dbRT1 dbRTrej 1 WStatus.rejected 2
      (by with_unfolding_all rfl))
    uRT1 uRTrej mem_uRT1 mem_uRTrej rfl

/-- Configuration of the referral scenario: welcome bonus 100, referral
bonus 10. -/
def cfgC3 : Config :=
  { ad_earning_rate := 5, referral_bonus := 10, minimum_withdrawal := 100,
    daily_earning_limit := 50, max_ads_per_day := 10, ad_cooldown := 60,
    welcome_bonus := 100, premium_multiplier := 3/2 }

/-- State after registering the referrer (telegram user 1) under `cfgC3`. -/
def dbC3a : DB :=
  (register_user cfgC3 DB.empty 1 "a" "f" "l" none "A" 0).getD DB.empty

/-- State after then registering telegram user 2 referred by user 1. -/
def dbC3 : DB :=
  (register_user cfgC3 dbC3a 2 "b" "f" "l" (some 1) "B" 1).getD DB.empty

/-- The referrer's user row in `dbC3a`. -/
def uC3a : User :=
  { id := 1, telegram_id := 1, username := "a", first_name := "f",
    last_name := "l", referral_code := "REF1A", referred_by := none,
    balance := 100, total_earned := 100, total_withdrawn := 0,
    total_ads_watched := 0, last_active := 0, is_banned := false,
    is_premium := false }

theorem reachable_dbC3a : Reachable cfgC3 dbC3a :=
  Reachable.step DB.empty dbC3a Reachable.init
    (Step.register DB.empty dbC3a 1 "a" "f" "l" none "A" 0
      (by with_unfolding_all rfl))

theorem mem_uC3a : uC3a ∈ dbC3a.users := by
  have h : dbC3a.users = [uC3a] := by with_unfolding_all rfl
  rw [h]
  exact List.mem_singleton_self _

/-- Witness for the C3 theorem at the referral scenario: registering user 2
with referrer user 1 creates the new user with welcome bonus 100 and
credits the referrer by 10 with exactly one referral-bonus event. -/
theorem register_user_creates_and_credits_witness :
    (∀ u ∈ dbC3a.users, u.referral_code ≠ referralCode 2 "B") ∧
    (dbC3.users.filter
      (fun u => u.referral_code == referralCode 2 "B")).length = 1 ∧
    (∃ nu ∈ dbC3.users, nu.id = dbC3a.next_user_id ∧ nu.telegram_id = 2 ∧
      nu.referral_code = referralCode 2 "B" ∧ nu.referred_by = some 1 ∧
      nu.balance = cfgC3.welcome_bonus ∧ nu.total_earned = cfgC3.welcome_bonus ∧
      nu.total_withdrawn = 0) ∧
    ((dbC3.earnings.drop dbC3a.earnings.length).filter
      (fun e => e.user_id == dbC3a.next_user_id && e.kind == "bonus")).length =
      (if 0 < cfgC3.welcome_bonus then 1 else 0) ∧
    (∀ v ∈ dbC3a.users, some 1 = some v.id →
      ((dbC3.earnings.drop dbC3a.earnings.length).filter
        (fun e => e.user_id == v.id && e.kind == "referral-bonus")).length = 1 ∧
      ∃ v' ∈ dbC3.users, v'.id = v.id ∧
        v'.balance = v.balance + cfgC3.referral_bonus ∧
        v'.total_earned = v.total_earned + cfgC3.referral_bonus) :=
  register_user_creates_and_credits (inv_reachable reachable_dbC3a)
    (Or.inr ⟨uC3a, mem_uC3a, rfl⟩) (by with_unfolding_all rfl)

/-- Witness for the amended C2 theorem at the referral scenario: after
registering user 2 (welcome bonus 100, referred by user 1), a duplicate
registration fails and the event counts are as stated. -/
theorem duplicate_registration_idempotent_witness :
    register_user cfgC3 dbC3 2 "x" "y" "z" none "C" 2 = none ∧
    (dbC3.users.filter (fun u => u.telegram_id == 2)).length = 1 ∧
    dbC3.earnings.take dbC3a.earnings.length = dbC3a.earnings ∧
    ((dbC3.earnings.drop dbC3a.earnings.length).filter
      (fun e => e.kind == "bonus")).length =
      (if 0 < cfgC3.welcome_bonus then 1 else 0) ∧
    ((dbC3.earnings.drop dbC3a.earnings.length).filter
      (fun e => e.kind == "referral-bonus")).length ≤ 1 :=
  duplicate_registration_idempotent cfgC3 dbC3a dbC3 2 "b" "f" "l" "x" "y" "z"
    (some 1) none "B" "C" 1 2 (by with_unfolding_all rfl)

end Ledger
